import Mathlib

/-!
# Verification of the market-visual-runner-bff time-series store

Shallow embedding of `services/market-visual-runner-bff/main.go`:
the in-memory tick store (`applyPoint`, `loadFromDirs`, `loadFromDirsRange`),
the directory scanner (`loadFromDir`, `ingestFile`), the query layer
(`buildTimeframeResponse`, `buildPriceOverview`,
`computeResolutionSecondsForTicks`) and the session manager.

Modelling conventions:
* Go `int64` / `int` values are embedded as `Int`; Go integer division is
  truncated division (`Int.tdiv` / `Int.tmod`).
* `time.Time` values are embedded as their Unix seconds (or milliseconds where
  the Go code uses `UnixMilli`), both `Int`.  Go's `Time.Truncate` rounds down
  on the absolute timeline, hence floor division (`Int.fdiv`) below.
* Go maps are embedded as association lists with replace-or-append insertion
  (`insertA`); Go map iteration order is modelled as list order.
* Prices are `float64` in Go, but the store performs no arithmetic or
  comparison on them — it only copies them around.  They are embedded as an
  abstract numeric carrier `Price := Int`; `strconv.ParseFloat` is modelled as
  integer parsing (`parseFloat` below), which preserves exactly the
  control-flow distinction the code makes (parse success vs failure).
-/

set_option autoImplicit false

namespace MVR

/-- Abstract carrier for Go `float64` prices (no arithmetic is performed on
prices anywhere in the embedded code). -/
abbrev Price := Int

/-- Association-list lookup (embeds Go map indexing `m[k]`). -/
def lookupA {α β : Type} [DecidableEq α] (l : List (α × β)) (k : α) : Option β :=
  match l with
  | [] => none
  | (k', v) :: t => if k' = k then some v else lookupA t k

/-- Association-list insert, replace-or-append (embeds Go map assignment
`m[k] = v`). -/
def insertA {α β : Type} [DecidableEq α] (l : List (α × β)) (k : α) (v : β) :
    List (α × β) :=
  match l with
  | [] => [(k, v)]
  | (k', v') :: t => if k' = k then (k, v) :: t else (k', v') :: insertA t k v

/-- Set-style insert used for the coverage minute sets (`map[int64]bool` with
only `true` values in Go). -/
def insertSet (l : List Int) (k : Int) : List Int :=
  if k ∈ l then l else l ++ [k]

@[simp] theorem lookupA_insertA_self {α β : Type} [DecidableEq α]
    (l : List (α × β)) (k : α) (v : β) : lookupA (insertA l k v) k = some v := by
  induction l with
  | nil => simp [insertA, lookupA]
  | cons h t ih =>
    by_cases hk : h.1 = k
    · simp [insertA, hk, lookupA]
    · simp [insertA, hk, lookupA, ih]

theorem lookupA_insertA_ne {α β : Type} [DecidableEq α]
    (l : List (α × β)) (k k' : α) (v : β) (h : k ≠ k') :
    lookupA (insertA l k v) k' = lookupA l k' := by
  induction l with
  | nil => simp [insertA, lookupA, h]
  | cons hd t ih =>
    by_cases hk : hd.1 = k
    · simp [insertA, hk, lookupA, h]
    · simp [insertA, hk, lookupA, ih]

theorem lookupA_mem {α β : Type} [DecidableEq α]
    (l : List (α × β)) (k : α) (v : β) (h : lookupA l k = some v) :
    (k, v) ∈ l := by
  induction l with
  | nil => simp [lookupA] at h
  | cons hd t ih =>
    obtain ⟨k', v'⟩ := hd
    by_cases hk : k' = k
    · simp [lookupA, hk] at h
      simp [hk, h]
    · simp [lookupA, hk] at h
      exact List.mem_cons_of_mem _ (ih h)

/-- One stored per-minute price entry: Go `type minutePrice struct { ts int64;
price float64 }`. -/
structure MinutePrice where
  ts : Int
  price : Price
  deriving DecidableEq, Repr

/-- Ghost record of one accepted tick (the arguments of one `applyPoint`
call). -/
structure Tick where
  symbol : String
  ts : Int
  price : Price
  deriving DecidableEq, Repr

/-- The local accumulation state of a scan pass: the local variables
`startTS`, `endTS`, `quality`, `prices` of `loadFromDirs`, plus two ghost
fields (`ticks`: every accepted tick, i.e. every `applyPoint` call;
`pathTS`: every path-derived timestamp fed to `updateRangeFromPath` that
parsed). The ghost fields are write-only instrumentation: no embedded code
path reads them. -/
structure Acc where
  startTS : Int
  endTS : Int
  quality : List (String × List Int)
  prices : List (String × List (Int × MinutePrice))
  ticks : List Tick
  pathTS : List Int
  deriving DecidableEq, Repr

/-- Empty accumulator (`startTS := int64(0)` etc. at the top of
`loadFromDirs`). -/
def emptyAcc : Acc := ⟨0, 0, [], [], [], []⟩

/-- The store's published state: the fields of Go `dataStore` (sans mutex). -/
structure Store where
  startTS : Int
  endTS : Int
  quality : List (String × List Int)
  prices : List (String × List (Int × MinutePrice))
  deriving DecidableEq, Repr

/-- Publish an accumulator (the swap under `s.mu.Lock()`). -/
def storeOfAcc (a : Acc) : Store :=
  ⟨a.startTS, a.endTS, a.quality, a.prices⟩

/-- `time.UnixMilli(ts).UTC().Truncate(time.Minute).Unix()`: the minute key of
a millisecond timestamp, in Unix seconds.  Go's `Truncate` floors on the
absolute timeline. -/
def minuteKeyOfMs (ts : Int) : Int := 60 * Int.fdiv ts 60000

/-- `t.Truncate(time.Minute).Unix()` for a second-precision time `t`. -/
def minuteFloorSec (s : Int) : Int := 60 * Int.fdiv s 60

/-- Go `applyPoint` (main.go): derives the minute key, marks coverage, and
stores the price if the minute is new or the tick's timestamp is strictly
larger than the stored one.  The Go function receives the file path and takes
`filepath.Base(filepath.Dir(path))` as the symbol; the embedding receives that
symbol directly.  `minTS`/`maxTS` are passed in Go but never read or written
by `applyPoint`, so they do not appear here. -/
def applyPoint (symbol : String) (ts : Int) (price : Price) (acc : Acc) : Acc :=
  let key := minuteKeyOfMs ts
  let qmap := (lookupA acc.quality symbol).getD []
  let pmap := (lookupA acc.prices symbol).getD []
  let pmap' :=
    match lookupA pmap key with
    | none => insertA pmap key ⟨ts, price⟩
    | some current =>
        if ts > current.ts then insertA pmap key ⟨ts, price⟩ else pmap
  { acc with
      quality := insertA acc.quality symbol (insertSet qmap key)
      prices := insertA acc.prices symbol pmap'
      ticks := acc.ticks ++ [⟨symbol, ts, price⟩] }

/-- Look up the stored minute price for `symbol`/`key` (reads
`prices[symbol][key]`). -/
def lookupPrice (acc : Acc) (symbol : String) (key : Int) : Option MinutePrice :=
  lookupA ((lookupA acc.prices symbol).getD []) key

/-! ## Character-level string primitives

Core `String` functions such as `String.splitOn` are defined by well-founded
recursion over byte positions and do not reduce inside the kernel, so the
embedding works on `List Char` (`String.data`) with structurally recursive
counterparts of the Go string functions it needs.  All separators the code
splits on are single characters. -/

/-- Character list of a string. -/
abbrev Chars := List Char

/-- Go `strings.Split` with a one-character separator (the only kind the
code uses: `"-"`, `"_"`, `"."`, `"|"`, `":"`). -/
def splitChar (sep : Char) : Chars → List Chars
  | [] => [[]]
  | c :: rest =>
    let r := splitChar sep rest
    if c = sep then [] :: r
    else
      match r with
      | [] => [[c]]
      | seg :: segs => (c :: seg) :: segs

/-- Go `strings.TrimSpace` (leading and trailing whitespace). -/
def trimChars (l : Chars) : Chars :=
  ((l.dropWhile Char.isWhitespace).reverse.dropWhile Char.isWhitespace).reverse

/-- Decimal digits to a number; `none` on an empty list or a non-digit. -/
def digitsToNat? (l : Chars) : Option Nat :=
  match l with
  | [] => none
  | _ =>
    l.foldl
      (fun acc c =>
        match acc with
        | none => none
        | some n => if c.isDigit then some (n * 10 + (c.toNat - 48)) else none)
      (some 0)

/-- Go `strconv.Atoi` / `strconv.ParseInt(_, 10, 64)`: optional sign, then
decimal digits (int64 overflow is not modelled). -/
def charsToInt? (l : Chars) : Option Int :=
  match l with
  | [] => none
  | c :: rest =>
    if c = '-' then (digitsToNat? rest).map (fun n => -(n : Int))
    else if c = '+' then (digitsToNat? rest).map (fun n => (n : Int))
    else (digitsToNat? l).map (fun n => (n : Int))

/-- ASCII lower-casing of one character (the header names compared with
`strings.EqualFold` are ASCII). -/
def lowerChar (c : Char) : Char :=
  if 65 ≤ c.toNat ∧ c.toNat ≤ 90 then Char.ofNat (c.toNat + 32) else c

/-! ## Row parsing (`parseTimestamp`, `parseFloat`, `parsePrice`, `indexOf`) -/

/-- Go `parseTimestamp`: trim, parse as int64, scale seconds to milliseconds
when below `10_000_000_000`. -/
def parseTimestamp (value : Chars) : Option Int :=
  let trimmed := trimChars value
  if trimmed = [] then none
  else
    match charsToInt? trimmed with
    | none => none
    | some ts => some (if ts < 10000000000 then ts * 1000 else ts)

/-- Go `parseFloat` (a trim-then-`strconv.ParseFloat` wrapper).  Prices are
modelled on the integer carrier (see the header comment), so this accepts
exactly the integral decimal literals; what the claims use is only the
success/failure split and value identity. -/
def parseFloat (value : Chars) : Option Price :=
  let trimmed := trimChars value
  if trimmed = [] then none else charsToInt? trimmed

/-- `parseFloat` applied at a (possibly absent) column index, with the
`idx >= 0 && idx < len(record)` bounds check of Go `parsePrice`.  An absent
Go index is `-1`, embedded as `none`. -/
def parseAt (record : List Chars) (idx : Option Nat) : Option Price :=
  match idx with
  | none => none
  | some i =>
    match record.get? i with
    | none => none
    | some cell => parseFloat cell

/-- Go `parsePrice`: first parseable of the `last`, `bid`, `ask` columns. -/
def parsePrice (record : List Chars) (idxLast idxBid idxAsk : Option Nat) :
    Option Price :=
  match parseAt record idxLast with
  | some v => some v
  | none =>
    match parseAt record idxBid with
    | some v => some v
    | none => parseAt record idxAsk

/-- Go `strings.EqualFold` restricted to ASCII (the header names the code
looks up are ASCII). -/
def eqFold (a b : Chars) : Bool := a.map lowerChar == b.map lowerChar

/-- Go `indexOf`: first index whose trimmed cell case-folds to `key`
(`-1`, i.e. `none`, when absent). -/
def indexOf (values : List Chars) (key : Chars) : Option Nat :=
  values.findIdx? (fun value => eqFold (trimChars value) key)

/-! ## File ingestion (`ingestFile` and the two encodings) -/

/-- Scanner state of one `encoding/csv` record: at the start of a field,
inside a non-quoted field, inside a quoted field, or just past a `"` inside
a quoted field. -/
inductive CsvMode where
  | fieldStart
  | unquoted
  | quoted
  | afterQuote
  deriving DecidableEq

/-- Field scanning of one `encoding/csv` record with the default reader
settings (`Comma = ','`, `LazyQuotes = false`, no comment rune), as
`csv.Reader.Read` applies them: a field starting with `"` is quoted with
`""` as the escaped quote; a stray `"` inside a non-quoted field is the
`bare "` parse error, and a `"` followed by anything but `"`/`,`/end is the
`extraneous or missing "` parse error.  One simplification: a quoted field
that is still open at the end of the line errors here, whereas Go would
continue the field into the following lines and raise the same error only
at EOF — records with multi-line quoted fields are outside the model. -/
def csvScan : CsvMode → Chars → Chars → List Chars → Except String (List Chars)
  | .fieldStart, [], field, fields => .ok (fields ++ [field])
  | .fieldStart, c :: rest, _, fields =>
    if c = '"' then csvScan .quoted rest [] fields
    else if c = ',' then csvScan .fieldStart rest [] (fields ++ [[]])
    else csvScan .unquoted rest [c] fields
  | .unquoted, [], field, fields => .ok (fields ++ [field])
  | .unquoted, c :: rest, field, fields =>
    if c = ',' then csvScan .fieldStart rest [] (fields ++ [field])
    else if c = '"' then .error "bare quote in non-quoted field"
    else csvScan .unquoted rest (field ++ [c]) fields
  | .quoted, [], _, _ => .error "extraneous or missing quote in field"
  | .quoted, c :: rest, field, fields =>
    if c = '"' then csvScan .afterQuote rest field fields
    else csvScan .quoted rest (field ++ [c]) fields
  | .afterQuote, [], field, fields => .ok (fields ++ [field])
  | .afterQuote, c :: rest, field, fields =>
    if c = '"' then csvScan .quoted rest (field ++ [ '"' ]) fields
    else if c = ',' then csvScan .fieldStart rest [] (fields ++ [field])
    else .error "extraneous or missing quote in field"

/-- One non-blank line as an `encoding/csv` record: the fields, or the parse
error `csv.Reader.Read` would return for it. -/
def readCSVRecord (line : Chars) : Except String (List Chars) :=
  csvScan .fieldStart line [] []

/-- The per-record body of the Go `ingestCSVWithHeaders` loop: `continue`
(= `none`) when the time cell is out of range or unparseable, or when no
price column parses (`last`/`bid`/`ask`, then the `p` fallback). -/
def rowPoint (idxTime : Nat) (idxLast idxBid idxAsk idxPrice : Option Nat)
    (record : List Chars) : Option (Int × Price) :=
  match record.get? idxTime with
  | none => none
  | some cell =>
    match parseTimestamp cell with
    | none => none
    | some ts =>
      match parsePrice record idxLast idxBid idxAsk with
      | some price => some (ts, price)
      | none =>
        match parseAt record idxPrice with
        | some price => some (ts, price)
        | none => none

/-- The Go `ingestCSVWithHeaders` record loop over the lines the reader
yields.  `reader.Read()` ignores blank lines, ends the loop at `io.EOF`
(the end of the list), and its parse errors — malformed quoting, since
`FieldsPerRecord = -1` makes `csv.ErrFieldCount` unreachable — hit the
loop's `return err` and abort the ingestion.  A record whose time or price
cells do not parse is skipped (`continue`); accepted rows go through
`applyPoint`. -/
def ingestRecords (symbol : String) (idxTime : Nat)
    (idxLast idxBid idxAsk idxPrice : Option Nat) :
    List String → Acc → Except String Acc
  | [], acc => .ok acc
  | l :: rest, acc =>
    if l.data = [] then
      ingestRecords symbol idxTime idxLast idxBid idxAsk idxPrice rest acc
    else
      match readCSVRecord l.data with
      | .error e => .error e
      | .ok record =>
        match rowPoint idxTime idxLast idxBid idxAsk idxPrice record with
        | none =>
          ingestRecords symbol idxTime idxLast idxBid idxAsk idxPrice rest acc
        | some (ts, price) =>
          ingestRecords symbol idxTime idxLast idxBid idxAsk idxPrice rest
            (applyPoint symbol ts price acc)

/-- The parsing part of Go `ingestCedroLine`: `timestamp|f0:f1:f2:f3:price...`,
price at colon-field index 4; every malformed shape returns `nil` (= `none`),
never an error. -/
def cedroPoint (line : Chars) : Option (Int × Price) :=
  match splitChar '|' line with
  | part0 :: part1 :: _ =>
    match parseTimestamp part0 with
    | none => none
    | some ts =>
      let fields := splitChar ':' part1
      if fields.length < 5 then none
      else
        match parseFloat (fields.getD 4 []) with
        | none => none
        | some price => some (ts, price)
  | _ => none

/-- Go `ingestCedroLine`: apply the parsed point, or skip. -/
def ingestCedroLine (symbol : String) (line : Chars) (acc : Acc) : Acc :=
  match cedroPoint line with
  | none => acc
  | some (ts, price) => applyPoint symbol ts price acc

/-- The scanner loop over the remaining lines of a cedro-format file:
trim, skip blanks, ingest. -/
def ingestCedroLines (symbol : String) : List String → Acc → Acc
  | [], acc => acc
  | l :: ls, acc =>
    let line := trimChars l.data
    if line = [] then ingestCedroLines symbol ls acc
    else ingestCedroLines symbol ls (ingestCedroLine symbol line acc)

/-- Go `ingestFile`.  `content = none` models a failed `os.Open` (returned as
an error, which the caller propagates).  A file is its list of text lines;
scanner I/O errors after a successful open are not modelled (`scanner.Err()`
is `nil`).  Content sniffing: a first line containing `|` and no `,` selects
the cedro branch; otherwise the trimmed first line is the CSV header
(`parseCSVHeader`, whose csv parse error is returned) and the records come
from `csv.NewReader` on the same handle.  Caveat on that handle: Go's
`bufio.Scanner` has buffered ahead of the header, so the program's
`csv.Reader` resumes at the scanner's buffered byte offset — it may see
none of the post-header content (a file within one scanner buffer) or only
a byte-offset suffix starting mid-record.  The embedding feeds the
post-header lines; the record-level theorems quantify over an arbitrary
line list, so they hold for whichever stream the reader actually yields. -/
def ingestFile (symbol : String) (content : Option (List String)) (acc : Acc) :
    Except String Acc :=
  match content with
  | none => .error "open failed"
  | some [] => .ok acc
  | some (first :: rest) =>
    let firstLine := trimChars first.data
    if firstLine = [] then .ok acc
    else if firstLine.contains '|' && !(firstLine.contains ',') then
      .ok (ingestCedroLines symbol rest (ingestCedroLine symbol firstLine acc))
    else
      match readCSVRecord firstLine with
      | .error e => .error e
      | .ok headers =>
        match (indexOf headers "time_msc".data).orElse
            (fun _ => indexOf headers "t".data) with
        | none => .error "missing time column"
        | some idxTime =>
          ingestRecords symbol idxTime (indexOf headers "last".data)
            (indexOf headers "bid".data) (indexOf headers "ask".data)
            (indexOf headers "p".data) rest acc

/-! ## Path-derived timestamps (`parseDirFileTimestamp`, `updateRangeFromPath`) -/

/-- Days between the proleptic-Gregorian civil date `(y, m, d)` and
1970-01-01, as computed by Go's `time.Date` for the argument ranges the
caller checks (`1 ≤ m ≤ 12`, `1 ≤ d ≤ 31`; out-of-month days extend
linearly in both computations). -/
def daysFromCivil (y m d : Int) : Int :=
  let ys := if m ≤ 2 then y - 1 else y
  let era := Int.fdiv ys 400
  let yoe := ys - era * 400
  let mp := if m > 2 then m - 3 else m + 9
  let doy := Int.fdiv (153 * mp + 2) 5 + d - 1
  let doe := yoe * 365 + Int.fdiv yoe 4 - Int.fdiv yoe 100 + doy
  era * 146097 + doe - 719468

/-- `filepath.Ext` / `strings.TrimSuffix`: the file name without its final
`.ext` segment. -/
def stripExt (name : Chars) : Chars :=
  let parts := splitChar '.' name
  if parts.length ≤ 1 then name
  else List.intercalate ['.'] parts.dropLast

/-- Go `parseDirFileTimestamp`: `YYYY-MM-DD` directory and `HH_MM.ext` file
name to a UTC millisecond timestamp, with the source's range checks. -/
def parseDirFileTimestamp (dateName fileName : String) : Option Int :=
  match splitChar '-' dateName.data with
  | [ys, ms, ds] =>
    match charsToInt? ys, charsToInt? ms, charsToInt? ds with
    | some year, some month, some day =>
      if month < 1 ∨ month > 12 then none
      else if day < 1 ∨ day > 31 then none
      else
        match splitChar '_' (stripExt fileName.data) with
        | [hs, mins] =>
          match charsToInt? hs, charsToInt? mins with
          | some hour, some minute =>
            if hour < 0 ∨ hour > 23 then none
            else if minute < 0 ∨ minute > 59 then none
            else some ((daysFromCivil year month day * 86400
              + hour * 3600 + minute * 60) * 1000)
          | _, _ => none
        | _ => none
    | _, _, _ => none
  | _ => none

/-- Go `updateRangeFromPath`: fold one path-derived timestamp into the
`(minTS, maxTS)` window, with the `0`-as-unset sentinel; unparseable names
contribute nothing.  Records the parsed timestamp in the `pathTS` ghost. -/
def updateRangeFromPath (dateName fileName : String) (acc : Acc) : Acc :=
  match parseDirFileTimestamp dateName fileName with
  | none => acc
  | some ts =>
    { acc with
        startTS := if acc.startTS = 0 ∨ ts < acc.startTS then ts else acc.startTS
        endTS := if acc.endTS = 0 ∨ ts > acc.endTS then ts else acc.endTS
        pathTS := acc.pathTS ++ [ts] }

/-! ## The on-disk tree and the scan passes (`loadFromDir`, `loadFromDirs`) -/

/-- A node of the scanned tree.  `file none` is a file `os.Open` fails on;
`dir none` is a directory `os.ReadDir` fails on. -/
inductive FNode where
  | file (content : Option (List String))
  | dir (entries : Option (List (String × FNode)))

/-- One configured root directory: absent (`os.IsNotExist`, skipped), failing
`os.Stat`, or present with a tree. -/
inductive RootDir where
  | missing
  | statErr
  | present (node : FNode)

/-- `entry.IsDir()`. -/
def FNode.isDir : FNode → Bool
  | .dir _ => true
  | .file _ => false

/-- `os.ReadDir` on a node: errors on unreadable directories and on
non-directories. -/
def readDir : FNode → Except String (List (String × FNode))
  | .dir (some entries) => .ok entries
  | .dir none => .error "readdir failed"
  | .file _ => .error "readdir on a file"

/-- The innermost loop of Go `loadFromDir`: the files of one
`date/symbol` directory.  Non-`.csv` names and subdirectories are skipped;
each kept file first updates the window from its path, then is ingested, and
an ingestion error aborts the scan. -/
def processFiles (dateName symbol : String) :
    List (String × FNode) → Acc → Except String Acc
  | [], acc => .ok acc
  | (name, node) :: rest, acc =>
    if node.isDir then processFiles dateName symbol rest acc
    else if !(List.isSuffixOf ".csv".data name.data) then processFiles dateName symbol rest acc
    else
      match node with
      | .dir _ => processFiles dateName symbol rest acc
      | .file content => do
        let acc1 := updateRangeFromPath dateName name acc
        let acc2 ← ingestFile symbol content acc1
        processFiles dateName symbol rest acc2

/-- The symbol-directory loop of Go `loadFromDir`. -/
def processSymbols (dateName : String) :
    List (String × FNode) → Acc → Except String Acc
  | [], acc => .ok acc
  | (symbol, node) :: rest, acc =>
    if !node.isDir then processSymbols dateName rest acc
    else do
      let files ← readDir node
      let acc1 ← processFiles dateName symbol files acc
      processSymbols dateName rest acc1

/-- The date-directory loop of Go `loadFromDir`. -/
def processDates : List (String × FNode) → Acc → Except String Acc
  | [], acc => .ok acc
  | (dateName, node) :: rest, acc =>
    if !node.isDir then processDates rest acc
    else do
      let symbols ← readDir node
      let acc1 ← processSymbols dateName symbols acc
      processDates rest acc1

/-- Go `loadFromDir`: read the root, then walk `date/symbol/file`. -/
def loadFromDir (root : FNode) (acc : Acc) : Except String Acc := do
  let dates ← readDir root
  processDates dates acc

/-- The root loop of Go `loadFromDirs`: `os.Stat` each root, skip absent
ones, fail on stat errors, scan present ones into the shared accumulator. -/
def loadRoots : List RootDir → Acc → Except String Acc
  | [], acc => .ok acc
  | root :: rest, acc =>
    match root with
    | .missing => loadRoots rest acc
    | .statErr => .error "stat failed"
    | .present node => do
      let acc1 ← loadFromDir node acc
      loadRoots rest acc1

/-- Go `(*dataStore).loadFromDirs`: build a fresh accumulator from scratch;
on success swap it in under the lock, on error return leaving the store's
fields untouched.  The pair is (returned error value, store state after the
call). -/
def loadFromDirs (roots : List RootDir) (s : Store) :
    Except String Unit × Store :=
  match loadRoots roots emptyAcc with
  | .error e => (.error e, s)
  | .ok acc => (.ok (), storeOfAcc acc)

/-- The file loop of Go `loadFromDirRange`: like `processFiles` but a file
whose path timestamp does not parse or falls outside `[startMs, endMs]` is
skipped before the window update and ingestion. -/
def processFilesRange (startMs endMs : Int) (dateName symbol : String) :
    List (String × FNode) → Acc → Except String Acc
  | [], acc => .ok acc
  | (name, node) :: rest, acc =>
    if node.isDir then processFilesRange startMs endMs dateName symbol rest acc
    else if !(List.isSuffixOf ".csv".data name.data) then
      processFilesRange startMs endMs dateName symbol rest acc
    else
      match parseDirFileTimestamp dateName name with
      | none => processFilesRange startMs endMs dateName symbol rest acc
      | some ts =>
        if ts < startMs ∨ ts > endMs then
          processFilesRange startMs endMs dateName symbol rest acc
        else
          match node with
          | .dir _ => processFilesRange startMs endMs dateName symbol rest acc
          | .file content => do
            let acc1 := updateRangeFromPath dateName name acc
            let acc2 ← ingestFile symbol content acc1
            processFilesRange startMs endMs dateName symbol rest acc2

/-- The symbol loop of Go `loadFromDirRange`. -/
def processSymbolsRange (startMs endMs : Int) (dateName : String) :
    List (String × FNode) → Acc → Except String Acc
  | [], acc => .ok acc
  | (symbol, node) :: rest, acc =>
    if !node.isDir then processSymbolsRange startMs endMs dateName rest acc
    else do
      let files ← readDir node
      let acc1 ← processFilesRange startMs endMs dateName symbol files acc
      processSymbolsRange startMs endMs dateName rest acc1

/-- The date loop of Go `loadFromDirRange`. -/
def processDatesRange (startMs endMs : Int) :
    List (String × FNode) → Acc → Except String Acc
  | [], acc => .ok acc
  | (dateName, node) :: rest, acc =>
    if !node.isDir then processDatesRange startMs endMs rest acc
    else do
      let symbols ← readDir node
      let acc1 ← processSymbolsRange startMs endMs dateName symbols acc
      processDatesRange startMs endMs rest acc1

/-- Go `loadFromDirRange`. -/
def loadFromDirRange (startMs endMs : Int) (root : FNode) (acc : Acc) :
    Except String Acc := do
  let dates ← readDir root
  processDatesRange startMs endMs dates acc

/-- The root loop of Go `loadFromDirsRange`. -/
def loadRootsRange (startMs endMs : Int) : List RootDir → Acc → Except String Acc
  | [], acc => .ok acc
  | root :: rest, acc =>
    match root with
    | .missing => loadRootsRange startMs endMs rest acc
    | .statErr => .error "stat failed"
    | .present node => do
      let acc1 ← loadFromDirRange startMs endMs node acc
      loadRootsRange startMs endMs rest acc1

/-- Go `(*dataStore).loadFromDirsRange`: as `loadFromDirs`, over the
range-restricted scan (`start`/`end` already as UTC milliseconds). -/
def loadFromDirsRange (roots : List RootDir) (startMs endMs : Int) (s : Store) :
    Except String Unit × Store :=
  match loadRootsRange startMs endMs roots emptyAcc with
  | .error e => (.error e, s)
  | .ok acc => (.ok (), storeOfAcc acc)

/-! ## `computeResolutionSecondsForTicks` -/

/-- Go `computeResolutionSecondsForTicks` over second-precision times
(`totalSeconds = int(end.Sub(start).Seconds())`, exact for whole-second
windows).  Go `int` division and modulus truncate toward zero. -/
def computeResolutionSecondsForTicks (startSec endSec : Int) (ticks : Int) :
    Int :=
  if ticks ≤ 1 then 60
  else if endSec < startSec then 60
  else
    let totalSeconds := endSec - startSec
    if totalSeconds ≤ 0 then 60
    else
      let steps := ticks - 1
      let seconds := Int.tdiv totalSeconds steps
      let seconds :=
        if Int.tmod totalSeconds steps ≠ 0 then seconds + 1 else seconds
      if seconds < 1 then 1 else seconds

/-! ## `buildTimeframeResponse` -/

/-- The timeframe payload.  `Start`/`End` are RFC3339-formatted in Go (an
injective rendering of the millisecond timestamps, kept raw here);
`resolutionMinutes` is the Go local variable that fixes both the label and
the bucket width. -/
structure TimeframeResp where
  startMs : Int
  endMs : Int
  resolution : String
  resolutionMinutes : Int
  frameQuality : List (String × List Nat)
  deriving DecidableEq, Repr

/-- The `switch` in Go `buildTimeframeResponse` choosing
`(resolutionMinutes, resolutionLabel)` from the window span in minutes. -/
def tfResolution (totalMinutes : Int) : Int × String :=
  if totalMinutes > 7 * 24 * 60 then (12 * 60, "12h")
  else if totalMinutes > 24 * 60 then (60, "1h")
  else if totalMinutes > 6 * 60 then (10, "10m")
  else if totalMinutes > 2 * 60 then (5, "5m")
  else (1, "1m")

/-- Insertion into a list sorted by a strict `less`. -/
def insertSorted (less : String → String → Bool) (x : String) :
    List String → List String
  | [] => [x]
  | y :: ys => if less x y then x :: y :: ys else y :: insertSorted less x ys

/-- Go `sort.Slice` on symbol names: its comparator (density descending,
then name ascending) is a strict total order on the distinct map keys, so
the sorted result is unique and insertion sort computes it. -/
def sortSyms (less : String → String → Bool) : List String → List String
  | [] => []
  | x :: xs => insertSorted less x (sortSyms less xs)

/-- Go `buildTimeframeResponse`.  The empty-store branch answers with a
`time.Now()`-based placeholder, which is not modelled (`none` here); all
claims concern the data-bearing branch.  `totalMinutes` is exact
(minute-aligned endpoints), Go's `int` casts and divisions truncate. -/
def buildTimeframeResponse (s : Store) : Option TimeframeResp :=
  if s.startTS ≤ 0 ∨ s.endTS ≤ 0 ∨ s.quality = [] then none
  else
    let startMinute := minuteKeyOfMs s.startTS
    let endMinute := minuteKeyOfMs s.endTS
    let totalMinutes0 := Int.tdiv (endMinute - startMinute) 60
    let totalMinutes := if totalMinutes0 < 0 then 0 else totalMinutes0
    let res := tfResolution totalMinutes
    let bucketCount := totalMinutes.toNat / res.1.toNat + 1
    let counts := fun sym => ((lookupA s.quality sym).getD []).length
    let less := fun a b =>
      if counts a = counts b then decide (a < b) else decide (counts a > counts b)
    let sorted := sortSyms less (s.quality.map Prod.fst)
    let fq := sorted.map (fun sym =>
      let flags := ((lookupA s.quality sym).getD []).foldl
        (fun flags minute =>
          let idx := Int.tdiv (Int.tdiv (minute - startMinute) 60) res.1
          if 0 ≤ idx ∧ idx < (bucketCount : Int) then
            flags.set idx.toNat 1
          else flags)
        (List.replicate bucketCount 0)
      (sym, flags))
    some ⟨s.startTS, s.endTS, res.2, res.1, fq⟩

/-! ## `buildPriceOverview` -/

/-- The price-overview payload.  `Resolution` is
`strconv.Itoa(resolutionSeconds) + "s"` in Go (injective in the number,
kept raw); `datetimes[i]` is the formatted bucket start (kept as Unix
seconds). -/
structure PriceOverviewResp where
  resolutionSeconds : Int
  prices : List (Option Price)
  datetimes : List Int
  deriving DecidableEq, Repr

/-- The `resolutionSeconds >= 60` arm of the bucket loop: walk the minutes
from `bucketStart.Truncate(time.Minute)` up to `bucketEnd` in 60-second
steps, keeping the latest present value. -/
def minuteScan (points : List (Int × MinutePrice)) (mStart bEnd : Int) :
    Option Price :=
  let n := if bEnd < mStart then 0 else (bEnd - mStart).toNat / 60 + 1
  ((List.range n).map (fun (j : Nat) => mStart + 60 * (j : Int))).foldl
    (fun latest t =>
      match lookupA points t with
      | none => latest
      | some point => some point.price)
    none

/-- The body of the Go bucket loop for bucket `i`: clamp the bucket end to
`end`, then either look up the single minute containing the bucket end
(`resolutionSeconds < 60`) or scan the bucket's minutes. -/
def bucketValue (points : List (Int × MinutePrice)) (startSec endSec R : Int)
    (i : Nat) : Option Price :=
  let bStart := startSec + (i : Int) * R
  let bEnd := min (bStart + R - 1) endSec
  if R < 60 then
    match lookupA points (minuteFloorSec bEnd) with
    | none => none
    | some point => some point.price
  else minuteScan points (minuteFloorSec bStart) bEnd

/-- Go `buildPriceOverview` on one symbol's minute map (`none` models the
`ok = false` return).  `start`/`end` arrive truncated to whole seconds;
the loop's `break` when a bucket start passes `end` is the `takeWhile`. -/
def buildPriceOverview (points : List (Int × MinutePrice))
    (startSec endSec R0 : Int) : Option PriceOverviewResp :=
  let R := if R0 ≤ 0 then 300 else R0
  let e := if endSec < startSec then startSec else endSec
  let totalSeconds := (e - startSec).toNat
  let buckets := totalSeconds / R.toNat + 1
  if points = [] then none
  else
    let idxs := (List.range buckets).takeWhile
      (fun (i : Nat) => decide (startSec + (i : Int) * R ≤ e))
    let prices := idxs.map (bucketValue points startSec e R)
    if prices.any (fun p => p.isSome) then
      some ⟨R, prices, idxs.map (fun (i : Nat) => startSec + (i : Int) * R)⟩
    else none

/-- The store-level entry point: Go reads `points := s.priceBySymbol[symbol]`
(a missing symbol reads as the empty map). -/
def buildPriceOverviewS (s : Store) (symbol : String)
    (startSec endSec R0 : Int) : Option PriceOverviewResp :=
  buildPriceOverview ((lookupA s.prices symbol).getD []) startSec endSec R0

/-! ## Session manager -/

/-- Go `computeState`.  The two `RangeStartTime`/`RangeEndTime` strings are
RFC3339Nano renderings of times (injective; kept as `Option Int` seconds,
`none` for the empty string); `UpdatedAt` is a wall-clock reading passed in
as `now`. -/
structure CState where
  computeMode : Bool
  rangeStart : Int
  rangeEnd : Int
  markers : Option (List (String × Int))
  ticksRequested : Int
  lastSymbol : String
  rangeStartTime : Option Int
  rangeEndTime : Option Int
  resolution : String
  customResolutionSeconds : Int
  updatedAt : Int
  deriving DecidableEq, Repr

/-- The zero `computeState{}`. -/
def zeroCState : CState := ⟨false, 0, 0, none, 0, "", none, none, "", 0, 0⟩

/-- The session table (`sessions map[string]*computeState`). -/
abbrev SessionTable := List (String × CState)

/-- Go `(*sessionManager).getState`: a read under `RLock` — returns the
entry or `nil` and performs no write (the table is returned unchanged to
make that explicit). -/
def getState (tbl : SessionTable) (id : String) :
    Option CState × SessionTable :=
  (lookupA tbl id, tbl)

/-- Go `(*sessionManager).setState` (the `state_update` handler): ignore
empty ids and `nil` states, otherwise stamp `UpdatedAt` and overwrite. -/
def setState (tbl : SessionTable) (id : String) (st : Option CState)
    (now : Int) : SessionTable :=
  match st with
  | none => tbl
  | some st =>
    if id = "" then tbl else insertA tbl id { st with updatedAt := now }

/-- Go `(*sessionManager).updateRange` (the `range_selection` handler):
create-if-absent, then overwrite the range fields, optionally the compute
mode, and the timestamp. -/
def updateRange (tbl : SessionTable) (id : String) (startT endT : Int)
    (rangeStart rangeEnd : Int) (computeMode : Option Bool) (now : Int) :
    SessionTable :=
  if id = "" then tbl
  else
    let base := (lookupA tbl id).getD zeroCState
    insertA tbl id
      { base with
          rangeStart := rangeStart
          rangeEnd := rangeEnd
          rangeStartTime := some startT
          rangeEndTime := some endT
          computeMode := computeMode.getD base.computeMode
          updatedAt := now }

/-- Go `(*sessionManager).resetState` (the `state_reset` handler): store and
return a fresh zero state (or `nil` and no write for an empty id). -/
def resetState (tbl : SessionTable) (id : String) (now : Int) :
    Option CState × SessionTable :=
  if id = "" then (none, tbl)
  else
    let st := { zeroCState with updatedAt := now }
    (some st, insertA tbl id st)

/-- One session-manager request, as dispatched by `handleWebsocket`:
`state_get`, `state_update`, `range_selection`, `state_reset`. -/
inductive SessionOp where
  | get (id : String)
  | set (id : String) (st : Option CState) (now : Int)
  | range (id : String) (startT endT rangeStart rangeEnd : Int)
      (computeMode : Option Bool) (now : Int)
  | reset (id : String) (now : Int)
  deriving DecidableEq

/-- Effect of one request on the session table. -/
def applySessionOp (tbl : SessionTable) : SessionOp → SessionTable
  | .get id => (getState tbl id).2
  | .set id st now => setState tbl id st now
  | .range id s e rs re cm now => updateRange tbl id s e rs re cm now
  | .reset id now => (resetState tbl id now).2

/-- The session id a request addresses. -/
def SessionOp.id : SessionOp → String
  | .get id => id
  | .set id _ _ => id
  | .range id _ _ _ _ _ _ => id
  | .reset id _ => id

/-- Whether a request is one of the writing kinds. -/
def SessionOp.isWrite : SessionOp → Bool
  | .get _ => false
  | _ => true

/-- A session table produced by a sequence of requests against the initially
empty `sessionManager`. -/
def runSessionOps (ops : List SessionOp) : SessionTable :=
  ops.foldl applySessionOp []

/-! ## General lemmas -/

/-- Ceiling division `⌈a / b⌉` for positive `a`, `b`, written with truncated
division as in the spec formula. -/
def ceilDivPos (a b : Int) : Int := Int.tdiv (a + b - 1) b

theorem natCeilDiv_eq (a b : Nat) (hb : 0 < b) :
    (a + b - 1) / b = a / b + (if a % b = 0 then 0 else 1) := by
  have hmod := Nat.div_add_mod a b
  have hlt : a % b < b := Nat.mod_lt _ hb
  by_cases hr : a % b = 0
  · have hsplit : a + b - 1 = b * (a / b) + (b - 1) := by omega
    rw [hsplit, Nat.mul_add_div hb,
      Nat.div_eq_of_lt (show b - 1 < b by omega)]
    simp [hr]
  · have hsplit : a + b - 1 = b * (a / b + 1) + (a % b - 1) := by
      have : b * (a / b + 1) = b * (a / b) + b := by ring
      omega
    rw [hsplit, Nat.mul_add_div hb,
      Nat.div_eq_of_lt (show a % b - 1 < b by omega)]
    simp [hr]

theorem natCeilDiv_pos (a b : Nat) (ha : 0 < a) (hb : 0 < b) :
    1 ≤ a / b + (if a % b = 0 then 0 else 1) := by
  by_cases hr : a % b = 0
  · have hdvd : b ∣ a := Nat.dvd_of_mod_eq_zero hr
    have : b ≤ a := Nat.le_of_dvd ha hdvd
    have : 1 ≤ a / b := (Nat.one_le_div_iff hb).mpr this
    omega
  · simp [hr]

/-! ## C7: resolution derived for `increase_resolution` -/

/-- C7: for `start ≤ end`, the resolution derived from a tick budget is
`ceil(window_seconds / (ticks - 1))` clamped below at 1 second, except that
`ticks ≤ 1` or an empty window yields exactly 60 seconds. -/
theorem computeResolution_spec (startSec endSec ticks : Int)
    (h : startSec ≤ endSec) :
    computeResolutionSecondsForTicks startSec endSec ticks =
      if ticks ≤ 1 ∨ endSec - startSec ≤ 0 then 60
      else max 1 (ceilDivPos (endSec - startSec) (ticks - 1)) := by
  unfold computeResolutionSecondsForTicks ceilDivPos
  by_cases ht : ticks ≤ 1
  · simp [ht]
  · have hns : ¬ endSec < startSec := not_lt.mpr h
    by_cases htot : endSec - startSec ≤ 0
    · simp [ht, hns, htot]
    · simp only [ht, hns, htot, if_false, if_neg, false_or, ite_false]
      have hT : (0 : Int) < endSec - startSec := lt_of_not_ge htot
      have hS : (0 : Int) < ticks - 1 := by omega
      set T := endSec - startSec with hTdef
      set S := ticks - 1 with hSdef
      obtain ⟨a, ha⟩ : ∃ a : Nat, T = (a : Int) :=
        ⟨T.toNat, (Int.toNat_of_nonneg (le_of_lt hT)).symm⟩
      obtain ⟨b, hb⟩ : ∃ b : Nat, S = (b : Int) :=
        ⟨S.toNat, (Int.toNat_of_nonneg (le_of_lt hS)).symm⟩
      have hapos : 0 < a := by omega
      have hbpos : 0 < b := by omega
      rw [ha, hb]
      rw [← Int.ofNat_tdiv, ← Int.ofNat_tmod]
      have hcast : (a : Int) + (b : Int) - 1 = ((a + b - 1 : Nat) : Int) := by
        omega
      rw [hcast, ← Int.ofNat_tdiv]
      rw [natCeilDiv_eq a b hbpos]
      have hge := natCeilDiv_pos a b hapos hbpos
      by_cases hr : a % b = 0
      · simp only [hr, Nat.cast_ofNat, if_true, ite_true]
        simp only [hr] at hge
        have : ¬ (((a / b : Nat) : Int) + 0 < 1) := by
          simp only [add_zero]
          exact_mod_cast not_lt.mpr hge
        simp only [Nat.cast_zero] at this ⊢
        rw [if_neg (by simpa using this)]
        have : (1 : Int) ≤ ((a / b + 0 : Nat) : Int) := by exact_mod_cast hge
        simp only [Nat.add_zero] at this ⊢
        omega
      · have hrZ : ((a % b : Nat) : Int) ≠ 0 := by exact_mod_cast hr
        simp only [hr, if_false, ite_false]
        rw [if_pos hrZ]
        simp only [hr] at hge
        have h1 : (1 : Int) ≤ ((a / b + 1 : Nat) : Int) := by exact_mod_cast hge
        have hpush : ((a / b + 1 : Nat) : Int) = ((a / b : Nat) : Int) + 1 := by
          push_cast
          ring
        rw [if_neg (by omega)]
        omega

/-- C7 witness: a 100-second window and an 11-tick budget yield
`ceil(100 / 10) = 10` seconds. -/
theorem computeResolution_spec_witness :
    computeResolutionSecondsForTicks 0 100 11 = 10 :=
  (computeResolution_spec 0 100 11 (by decide)).trans (by decide)

/-! ## C2: adaptive coverage resolution table -/

/-- The total window span in minutes that `buildTimeframeResponse` computes
(minute-truncated endpoints, clamped below at zero). -/
def tfSpan (s : Store) : Int :=
  max 0 (Int.tdiv (minuteKeyOfMs s.endTS - minuteKeyOfMs s.startTS) 60)

theorem tfResolution_table (m : Int) :
    (m ≤ 120 → tfResolution m = (1, "1m")) ∧
    (120 < m → m ≤ 360 → tfResolution m = (5, "5m")) ∧
    (360 < m → m ≤ 1440 → tfResolution m = (10, "10m")) ∧
    (1440 < m → m ≤ 10080 → tfResolution m = (60, "1h")) ∧
    (10080 < m → tfResolution m = (720, "12h")) := by
  unfold tfResolution
  norm_num
  refine ⟨?_, ?_, ?_, ?_, ?_⟩ <;> intros <;> split_ifs <;> first | rfl | omega

/-- C2: for every store state with a non-empty window, the coverage
resolution (width and label) is chosen from the window span in minutes
exactly per the table: span ≤ 120 → 1m, ≤ 360 → 5m, ≤ 1440 → 10m,
≤ 10080 → 1h, else 12h. -/
theorem buildTimeframe_resolution_table (s : Store) (r : TimeframeResp)
    (h : buildTimeframeResponse s = some r) :
    (tfSpan s ≤ 120 → r.resolutionMinutes = 1 ∧ r.resolution = "1m") ∧
    (120 < tfSpan s → tfSpan s ≤ 360 →
      r.resolutionMinutes = 5 ∧ r.resolution = "5m") ∧
    (360 < tfSpan s → tfSpan s ≤ 1440 →
      r.resolutionMinutes = 10 ∧ r.resolution = "10m") ∧
    (1440 < tfSpan s → tfSpan s ≤ 10080 →
      r.resolutionMinutes = 60 ∧ r.resolution = "1h") ∧
    (10080 < tfSpan s → r.resolutionMinutes = 720 ∧ r.resolution = "12h") := by
  by_cases hc : s.startTS ≤ 0 ∨ s.endTS ≤ 0 ∨ s.quality = []
  · simp [buildTimeframeResponse, hc] at h
  · rw [buildTimeframeResponse, if_neg hc] at h
    have hr := (Option.some.injEq _ _).mp h
    have hm : tfSpan s =
        (if Int.tdiv (minuteKeyOfMs s.endTS - minuteKeyOfMs s.startTS) 60 < 0
          then 0
          else Int.tdiv (minuteKeyOfMs s.endTS - minuteKeyOfMs s.startTS) 60) := by
      unfold tfSpan
      split_ifs with hlt
      · omega
      · omega
    have hmin : r.resolutionMinutes = (tfResolution (tfSpan s)).1 := by
      rw [← hr, hm]
    have hlab : r.resolution = (tfResolution (tfSpan s)).2 := by
      rw [← hr, hm]
    obtain ⟨t1, t2, t3, t4, t5⟩ := tfResolution_table (tfSpan s)
    refine ⟨?_, ?_, ?_, ?_, ?_⟩
    · intro hsp
      rw [hmin, hlab, t1 hsp]
      exact ⟨rfl, rfl⟩
    · intro h1 h2
      rw [hmin, hlab, t2 h1 h2]
      exact ⟨rfl, rfl⟩
    · intro h1 h2
      rw [hmin, hlab, t3 h1 h2]
      exact ⟨rfl, rfl⟩
    · intro h1 h2
      rw [hmin, hlab, t4 h1 h2]
      exact ⟨rfl, rfl⟩
    · intro h1
      rw [hmin, hlab, t5 h1]
      exact ⟨rfl, rfl⟩

/-- C2 witness: a one-hour window (span 60 minutes) gets 1-minute
resolution. -/
theorem buildTimeframe_resolution_table_witness :
    ((buildTimeframeResponse ⟨60000, 3660000, [("A", [60])], []⟩).map
      (fun r => r.resolution)) = some "1m" := by
  have h : buildTimeframeResponse ⟨60000, 3660000, [("A", [60])], []⟩ =
      some ⟨60000, 3660000, "1m", 1, [("A", 1 :: List.replicate 60 0)]⟩ := by
    decide
  have := (buildTimeframe_resolution_table _ _ h).1 (by decide)
  rw [h]
  simp [this.2]

/-! ## C3: order independence of `applyPoint` for distinct timestamps -/

theorem lookupPrice_applyPoint_same (symbol : String) (ts : Int) (p : Price)
    (acc : Acc) :
    lookupPrice (applyPoint symbol ts p acc) symbol (minuteKeyOfMs ts) =
      match lookupPrice acc symbol (minuteKeyOfMs ts) with
      | none => some ⟨ts, p⟩
      | some cur => if ts > cur.ts then some ⟨ts, p⟩ else some cur := by
  unfold applyPoint lookupPrice
  simp only [lookupA_insertA_self, Option.getD_some]
  cases hcur : lookupA ((lookupA acc.prices symbol).getD []) (minuteKeyOfMs ts) with
  | none => simp [hcur]
  | some cur =>
    simp only [hcur]
    by_cases hgt : ts > cur.ts
    · simp [hgt]
    · simp [hgt, hcur]

/-- C3: two same-minute ticks with distinct timestamps leave, in either
ingestion order, the minute's entry holding the later tick. -/
theorem applyPoint_order_independent (acc : Acc) (symbol : String)
    (ts1 ts2 : Int) (p1 p2 : Price)
    (hmin : minuteKeyOfMs ts1 = minuteKeyOfMs ts2) (hne : ts1 ≠ ts2)
    (habs : lookupPrice acc symbol (minuteKeyOfMs ts1) = none) :
    lookupPrice (applyPoint symbol ts2 p2 (applyPoint symbol ts1 p1 acc))
        symbol (minuteKeyOfMs ts1) =
      lookupPrice (applyPoint symbol ts1 p1 (applyPoint symbol ts2 p2 acc))
        symbol (minuteKeyOfMs ts1) ∧
    lookupPrice (applyPoint symbol ts2 p2 (applyPoint symbol ts1 p1 acc))
        symbol (minuteKeyOfMs ts1) =
      some ⟨max ts1 ts2, if ts1 < ts2 then p2 else p1⟩ := by
  have h1 := lookupPrice_applyPoint_same symbol ts1 p1 acc
  rw [habs] at h1
  have habs2 : lookupPrice acc symbol (minuteKeyOfMs ts2) = none := by
    rw [← hmin]
    exact habs
  have h2 := lookupPrice_applyPoint_same symbol ts2 p2 acc
  rw [habs2] at h2
  have h12 := lookupPrice_applyPoint_same symbol ts2 p2
    (applyPoint symbol ts1 p1 acc)
  rw [← hmin, h1] at h12
  have h21 := lookupPrice_applyPoint_same symbol ts1 p1
    (applyPoint symbol ts2 p2 acc)
  rw [hmin, h2] at h21
  rw [← hmin] at h21
  rcases lt_or_gt_of_ne hne with hlt | hgt
  · have e12 : lookupPrice (applyPoint symbol ts2 p2
        (applyPoint symbol ts1 p1 acc)) symbol (minuteKeyOfMs ts1) =
        some ⟨ts2, p2⟩ := by
      rw [h12]
      simp [hlt]
    have e21 : lookupPrice (applyPoint symbol ts1 p1
        (applyPoint symbol ts2 p2 acc)) symbol (minuteKeyOfMs ts1) =
        some ⟨ts2, p2⟩ := by
      rw [h21]
      simp [not_lt.mpr (le_of_lt hlt)]
    refine ⟨e12.trans e21.symm, ?_⟩
    rw [e12, max_eq_right (le_of_lt hlt), if_pos hlt]
  · have e12 : lookupPrice (applyPoint symbol ts2 p2
        (applyPoint symbol ts1 p1 acc)) symbol (minuteKeyOfMs ts1) =
        some ⟨ts1, p1⟩ := by
      rw [h12]
      simp [not_lt.mpr (le_of_lt hgt)]
    have e21 : lookupPrice (applyPoint symbol ts1 p1
        (applyPoint symbol ts2 p2 acc)) symbol (minuteKeyOfMs ts1) =
        some ⟨ts1, p1⟩ := by
      rw [h21]
      simp [hgt]
    refine ⟨e12.trans e21.symm, ?_⟩
    rw [e12, max_eq_left (le_of_lt hgt), if_neg (not_lt.mpr (le_of_lt hgt))]

/-- C3 witness: ticks at 10s and 50s into the same minute, prices 1 and 2,
agree on `(50000, 2)` in both orders. -/
theorem applyPoint_order_independent_witness :
    lookupPrice (applyPoint "A" 50000 2 (applyPoint "A" 10000 1 emptyAcc))
      "A" (minuteKeyOfMs 10000) = some ⟨50000, 2⟩ := by
  have h := applyPoint_order_independent emptyAcc "A" 10000 50000 1 2
    (by decide) (by decide) (by decide)
  rw [h.2]
  decide

/-! ## C8: a failed reload keeps the previous snapshot -/

/-- C8: whenever `loadFromDirs` or `loadFromDirsRange` returns an error, the
store state after the call is exactly the state before it (the swap happens
only on success). -/
theorem load_error_preserves_store (roots : List RootDir) (s : Store)
    (startMs endMs : Int) :
    (∀ e, (loadFromDirs roots s).1 = .error e → (loadFromDirs roots s).2 = s) ∧
    (∀ e, (loadFromDirsRange roots startMs endMs s).1 = .error e →
      (loadFromDirsRange roots startMs endMs s).2 = s) := by
  constructor
  · intro e h
    unfold loadFromDirs at h ⊢
    cases hload : loadRoots roots emptyAcc with
    | error e' => simp [hload]
    | ok acc =>
      rw [hload] at h
      simp at h
  · intro e h
    unfold loadFromDirsRange at h ⊢
    cases hload : loadRootsRange startMs endMs roots emptyAcc with
    | error e' => simp [hload]
    | ok acc =>
      rw [hload] at h
      simp at h

/-- C8 witness: a root whose `os.Stat` fails aborts both scan passes and
leaves a non-empty prior store untouched. -/
theorem load_error_preserves_store_witness :
    (loadFromDirs [RootDir.statErr]
        ⟨1, 2, [("A", [60])], [("A", [(60, ⟨60000, 7⟩)])]⟩).2 =
      ⟨1, 2, [("A", [60])], [("A", [(60, ⟨60000, 7⟩)])]⟩ ∧
    (loadFromDirsRange [RootDir.statErr] 0 10
        ⟨1, 2, [("A", [60])], [("A", [(60, ⟨60000, 7⟩)])]⟩).2 =
      ⟨1, 2, [("A", [60])], [("A", [(60, ⟨60000, 7⟩)])]⟩ :=
  ⟨(load_error_preserves_store [RootDir.statErr] _ 0 10).1 "stat failed" rfl,
   (load_error_preserves_store [RootDir.statErr] _ 0 10).2 "stat failed" rfl⟩

/-! ## C10: `state_get` on an unwritten session id -/

theorem lookupA_applySessionOp (tbl : SessionTable) (op : SessionOp)
    (target : String) (h : op.isWrite = true → op.id ≠ target) :
    lookupA (applySessionOp tbl op) target = lookupA tbl target := by
  cases op with
  | get id => rfl
  | set id st now =>
    cases st with
    | none => rfl
    | some st =>
      have hne : id ≠ target := h rfl
      by_cases hid : id = ""
      · simp [applySessionOp, setState, hid]
      · simp [applySessionOp, setState, hid, lookupA_insertA_ne _ _ _ _ hne]
  | range id s e rs re cm now =>
    have hne : id ≠ target := h rfl
    by_cases hid : id = ""
    · simp [applySessionOp, updateRange, hid]
    · simp [applySessionOp, updateRange, hid, lookupA_insertA_ne _ _ _ _ hne]
  | reset id now =>
    have hne : id ≠ target := h rfl
    by_cases hid : id = ""
    · simp [applySessionOp, resetState, hid]
    · simp [applySessionOp, resetState, hid, lookupA_insertA_ne _ _ _ _ hne]

theorem lookupA_runSessionOps_aux (ops : List SessionOp) (tbl : SessionTable)
    (target : String)
    (h : ∀ op ∈ ops, op.isWrite = true → op.id ≠ target) :
    lookupA (ops.foldl applySessionOp tbl) target = lookupA tbl target := by
  induction ops generalizing tbl with
  | nil => rfl
  | cons op rest ih =>
    rw [List.foldl_cons,
      ih _ (fun o ho => h o (List.mem_cons_of_mem _ ho)),
      lookupA_applySessionOp tbl op target (h op (List.mem_cons_self _ _))]

/-- C10: a `state_get` for a session id never addressed by a write
(`state_update`, `range_selection`, `state_reset`) returns a `nil` state and
leaves the session table unchanged (reads never materialize an entry). -/
theorem stateGet_unwritten (ops : List SessionOp) (target : String)
    (h : ∀ op ∈ ops, op.isWrite = true → op.id ≠ target) :
    (getState (runSessionOps ops) target).1 = none ∧
    (getState (runSessionOps ops) target).2 = runSessionOps ops := by
  refine ⟨?_, rfl⟩
  unfold getState runSessionOps
  simpa using lookupA_runSessionOps_aux ops [] target h

/-- C10 witness: after a write to another session and a read of `"t"`,
reading `"t"` yields `nil`. -/
theorem stateGet_unwritten_witness :
    (getState (runSessionOps
      [SessionOp.set "other" (some zeroCState) 5, SessionOp.get "t"]) "t").1 =
      none :=
  (stateGet_unwritten
    [SessionOp.set "other" (some zeroCState) 5, SessionOp.get "t"] "t"
    (by decide)).1

/-! ## C4: the stored pair per minute -/

/-- Ingest a list of `(timestamp, price)` ticks for one symbol, left to
right (the order the scanner feeds `applyPoint`). -/
def applyTicks (symbol : String) (l : List (Int × Price)) (acc : Acc) : Acc :=
  l.foldl (fun a tp => applyPoint symbol tp.1 tp.2 a) acc

/-- The per-minute update rule of `applyPoint` on an already-present entry:
replace only on a strictly larger timestamp. -/
def latestStep (cur : MinutePrice) (tp : Int × Price) : MinutePrice :=
  if tp.1 > cur.ts then ⟨tp.1, tp.2⟩ else cur

/-- C4 counterexample: two ticks sharing one timestamp (60000 ms) but with
different prices end up stored differently depending on ingestion order —
the tie-break is first-writer-wins, not insertion-order independent. -/
theorem applyPoint_tie_order_dependent :
    lookupPrice (applyPoint "A" 60000 2 (applyPoint "A" 60000 1 emptyAcc)) "A"
        (minuteKeyOfMs 60000) ≠
      lookupPrice (applyPoint "A" 60000 1 (applyPoint "A" 60000 2 emptyAcc))
        "A" (minuteKeyOfMs 60000) := by
  decide

theorem lookupPrice_applyTicks_some (symbol : String) (key : Int)
    (l : List (Int × Price)) (acc : Acc) (cur : MinutePrice)
    (hall : ∀ tp ∈ l, minuteKeyOfMs tp.1 = key)
    (hcur : lookupPrice acc symbol key = some cur) :
    lookupPrice (applyTicks symbol l acc) symbol key =
      some (l.foldl latestStep cur) := by
  induction l generalizing acc cur with
  | nil => simpa [applyTicks] using hcur
  | cons tp rest ih =>
    have hkey : minuteKeyOfMs tp.1 = key := hall tp (List.mem_cons_self _ _)
    have hstep := lookupPrice_applyPoint_same symbol tp.1 tp.2 acc
    rw [hkey, hcur] at hstep
    have hres : lookupPrice (applyPoint symbol tp.1 tp.2 acc) symbol key =
        some (latestStep cur tp) := by
      rw [hstep]
      unfold latestStep
      by_cases hgt : tp.1 > cur.ts
      · simp [hgt]
      · simp [hgt]
    have := ih (applyPoint symbol tp.1 tp.2 acc) (latestStep cur tp)
      (fun x hx => hall x (List.mem_cons_of_mem _ hx)) hres
    simpa [applyTicks] using this

theorem latestFold_props (l : List (Int × Price)) (c : MinutePrice) :
    c.ts ≤ (l.foldl latestStep c).ts ∧
    (∀ tp ∈ l, tp.1 ≤ (l.foldl latestStep c).ts) ∧
    ((l.foldl latestStep c).ts = c.ts → l.foldl latestStep c = c) ∧
    ((l.foldl latestStep c).ts ≠ c.ts →
      l.find? (fun tp => tp.1 == (l.foldl latestStep c).ts) =
        some ((l.foldl latestStep c).ts, (l.foldl latestStep c).price) ∧
      c.ts < (l.foldl latestStep c).ts) := by
  induction l generalizing c with
  | nil =>
    refine ⟨le_refl _, by simp, fun _ => rfl, fun h => absurd rfl h⟩
  | cons tp rest ih =>
    rw [List.foldl_cons]
    obtain ⟨ih1, ih2, ih3, ih4⟩ := ih (latestStep c tp)
    by_cases hgt : tp.1 > c.ts
    · have hc' : latestStep c tp = ⟨tp.1, tp.2⟩ := by
        unfold latestStep
        simp [hgt]
      rw [hc'] at ih1 ih2 ih3 ih4 ⊢
      dsimp only at ih1 ih3 ih4
      set d := rest.foldl latestStep ⟨tp.1, tp.2⟩ with hd
      refine ⟨by omega, ?_, ?_, ?_⟩
      · intro x hx
        rcases List.mem_cons.mp hx with rfl | hx
        · exact ih1
        · exact ih2 x hx
      · intro hdc
        omega
      · intro _
        by_cases hde : d.ts = tp.1
        · have hdval : d = ⟨tp.1, tp.2⟩ := ih3 hde
          rw [List.find?_cons_of_pos _ (by simp [hde])]
          refine ⟨by simp [hdval], by omega⟩
        · obtain ⟨hfind, hlt⟩ := ih4 hde
          rw [List.find?_cons_of_neg _ (by
            simp only [beq_iff_eq]
            exact fun h => hde h.symm)]
          exact ⟨hfind, by omega⟩
    · have hc' : latestStep c tp = c := by
        unfold latestStep
        simp [hgt]
      rw [hc'] at ih1 ih2 ih3 ih4 ⊢
      set d := rest.foldl latestStep c with hd
      refine ⟨ih1, ?_, ih3, ?_⟩
      · intro x hx
        rcases List.mem_cons.mp hx with rfl | hx
        · omega
        · exact ih2 x hx
      · intro hdc
        obtain ⟨hfind, hlt⟩ := ih4 hdc
        rw [List.find?_cons_of_neg _ (by
          simp only [beq_iff_eq]
          omega)]
        exact ⟨hfind, hlt⟩

/-- C4 amended: for every symbol and minute, after ingesting a non-empty
same-minute tick list into a store without a prior entry for that minute,
the stored pair carries the largest timestamp observed, and its price is the
price of the **first** tick in ingestion order attaining that timestamp
(first-writer-wins on ties, so the tie-break does depend on insertion
order). -/
theorem applyTicks_largest_first (acc : Acc) (symbol : String) (key : Int)
    (l : List (Int × Price)) (hne : l ≠ [])
    (hall : ∀ tp ∈ l, minuteKeyOfMs tp.1 = key)
    (habs : lookupPrice acc symbol key = none) :
    ∃ mp, lookupPrice (applyTicks symbol l acc) symbol key = some mp ∧
      (∀ tp ∈ l, tp.1 ≤ mp.ts) ∧
      l.find? (fun tp => tp.1 == mp.ts) = some (mp.ts, mp.price) := by
  match l, hne with
  | tp :: rest, _ =>
    have hkey : minuteKeyOfMs tp.1 = key := hall tp (List.mem_cons_self _ _)
    have hstep := lookupPrice_applyPoint_same symbol tp.1 tp.2 acc
    rw [hkey, habs] at hstep
    have hrest := lookupPrice_applyTicks_some symbol key rest
      (applyPoint symbol tp.1 tp.2 acc) ⟨tp.1, tp.2⟩
      (fun x hx => hall x (List.mem_cons_of_mem _ hx)) hstep
    refine ⟨rest.foldl latestStep ⟨tp.1, tp.2⟩, ?_, ?_, ?_⟩
    · have : applyTicks symbol (tp :: rest) acc =
          applyTicks symbol rest (applyPoint symbol tp.1 tp.2 acc) := by
        simp [applyTicks]
      rw [this]
      exact hrest
    · obtain ⟨ih1, ih2, _, _⟩ := latestFold_props rest ⟨tp.1, tp.2⟩
      intro x hx
      rcases List.mem_cons.mp hx with rfl | hx
      · exact ih1
      · exact ih2 x hx
    · obtain ⟨ih1, ih2, ih3, ih4⟩ := latestFold_props rest ⟨tp.1, tp.2⟩
      dsimp only at ih1 ih3 ih4
      set d := rest.foldl latestStep ⟨tp.1, tp.2⟩ with hd
      by_cases hde : d.ts = tp.1
      · have hdval : d = ⟨tp.1, tp.2⟩ := ih3 hde
        rw [List.find?_cons_of_pos _ (by simp [hde])]
        simp [hdval]
      · obtain ⟨hfind, _⟩ := ih4 hde
        rw [List.find?_cons_of_neg _ (by
          simp only [beq_iff_eq]
          exact fun h => hde h.symm)]
        exact hfind

/-- C4 witness: same-minute ticks `(70000, 1)`, `(70000, 2)`, `(62000, 5)`
store `(70000, 1)`: the maximal timestamp with the first price carrying
it. -/
theorem applyTicks_largest_first_witness :
    lookupPrice (applyTicks "A" [(70000, 1), (70000, 2), (62000, 5)] emptyAcc)
        "A" 60 = some ⟨70000, 1⟩ ∧
    List.find? (fun tp => tp.1 == (70000 : Int))
        [((70000 : Int), (1 : Price)), (70000, 2), (62000, 5)] =
      some (70000, 1) := by
  obtain ⟨mp, h1, h2, h3⟩ := applyTicks_largest_first emptyAcc "A" 60
    [(70000, 1), (70000, 2), (62000, 5)] (by decide) (by decide) (by decide)
  have hval : lookupPrice
      (applyTicks "A" [(70000, 1), (70000, 2), (62000, 5)] emptyAcc) "A" 60 =
      some ⟨70000, 1⟩ := by
    decide
  have hmp : mp = ⟨70000, 1⟩ := by
    rw [hval] at h1
    exact (Option.some_inj.mp h1).symm
  subst hmp
  exact ⟨hval, h3⟩

/-! ## C5 / C6: `buildPriceOverview` bucketing -/

theorem takeWhile_all {α : Type} (p : α → Bool) (l : List α)
    (h : ∀ x ∈ l, p x = true) : l.takeWhile p = l := by
  induction l with
  | nil => rfl
  | cons x xs ih =>
    rw [List.takeWhile_cons, h x (List.mem_cons_self _ _)]
    simp [ih (fun y hy => h y (List.mem_cons_of_mem _ hy))]

theorem minuteFloorSec_eq (s : Int) : minuteFloorSec s = 60 * (s / 60) := by
  unfold minuteFloorSec
  rw [Int.fdiv_eq_ediv _ (by norm_num)]

theorem scanFold_some (points : List (Int × MinutePrice)) (l : List Int)
    (init : Option Price) (p : Price)
    (h : l.foldl (fun latest t =>
        match lookupA points t with
        | none => latest
        | some point => some point.price) init = some p) :
    (∃ t ∈ l, ∃ mp, lookupA points t = some mp ∧ mp.price = p) ∨
      init = some p := by
  induction l generalizing init with
  | nil => exact Or.inr h
  | cons t rest ih =>
    rw [List.foldl_cons] at h
    rcases ih _ h with ⟨t', ht', hmp⟩ | hinit
    · exact Or.inl ⟨t', List.mem_cons_of_mem _ ht', hmp⟩
    · cases hl : lookupA points t with
      | none =>
        rw [hl] at hinit
        exact Or.inr hinit
      | some point =>
        rw [hl] at hinit
        exact Or.inl ⟨t, List.mem_cons_self _ _, point, hl,
          Option.some_inj.mp hinit⟩

theorem scanFold_none (points : List (Int × MinutePrice)) (l : List Int)
    (init : Option Price) (h : ∀ t ∈ l, lookupA points t = none) :
    l.foldl (fun latest t =>
        match lookupA points t with
        | none => latest
        | some point => some point.price) init = init := by
  induction l generalizing init with
  | nil => rfl
  | cons t rest ih =>
    rw [List.foldl_cons, h t (List.mem_cons_self _ _)]
    exact ih _ (fun x hx => h x (List.mem_cons_of_mem _ hx))

theorem minuteScan_some (points : List (Int × MinutePrice)) (m0 bEnd : Int)
    (p : Price) (h : minuteScan points m0 bEnd = some p) :
    ∃ k mp, lookupA points k = some mp ∧ mp.price = p ∧ m0 ≤ k ∧ k ≤ bEnd := by
  unfold minuteScan at h
  rcases scanFold_some points _ none p h with ⟨t, ht, mp, hmp, hp⟩ | hinit
  · rw [List.mem_map] at ht
    obtain ⟨j, hj, rfl⟩ := ht
    rw [List.mem_range] at hj
    by_cases hlt : bEnd < m0
    · rw [if_pos hlt] at hj
      omega
    · rw [if_neg hlt] at hj
      have h1 : j ≤ (bEnd - m0).toNat / 60 := Nat.lt_succ_iff.mp hj
      have h2 : 60 * j ≤ (bEnd - m0).toNat := by omega
      have h3 : ((bEnd - m0).toNat : Int) = bEnd - m0 :=
        Int.toNat_of_nonneg (by omega)
      have h4 : ((60 * j : Nat) : Int) ≤ ((bEnd - m0).toNat : Int) := by
        exact_mod_cast h2
      refine ⟨m0 + 60 * (j : Int), mp, hmp, hp, by omega, ?_⟩
      push_cast at h4
      omega
  · exact absurd hinit (by simp)

theorem minuteScan_none (points : List (Int × MinutePrice)) (m0 bEnd : Int)
    (h : ∀ k, m0 ≤ k → k ≤ bEnd → lookupA points k = none) :
    minuteScan points m0 bEnd = none := by
  unfold minuteScan
  apply scanFold_none
  intro t ht
  rw [List.mem_map] at ht
  obtain ⟨j, hj, rfl⟩ := ht
  rw [List.mem_range] at hj
  by_cases hlt : bEnd < m0
  · rw [if_pos hlt] at hj
    omega
  · rw [if_neg hlt] at hj
    have h1 : j ≤ (bEnd - m0).toNat / 60 := Nat.lt_succ_iff.mp hj
    have h2 : 60 * j ≤ (bEnd - m0).toNat := by omega
    have h3 : ((bEnd - m0).toNat : Int) = bEnd - m0 :=
      Int.toNat_of_nonneg (by omega)
    have h4 : ((60 * j : Nat) : Int) ≤ ((bEnd - m0).toNat : Int) := by
      exact_mod_cast h2
    push_cast at h4
    exact h _ (by omega) (by omega)

theorem bucketStart_le (start e R : Int) (i : Nat) (hR : 0 < R)
    (hse : start ≤ e) (hi : i < (e - start).toNat / R.toNat + 1) :
    start + (i : Int) * R ≤ e := by
  have h1 : i ≤ (e - start).toNat / R.toNat := Nat.lt_succ_iff.mp hi
  have h2 : i * R.toNat ≤ (e - start).toNat :=
    le_trans (Nat.mul_le_mul_right _ h1) (Nat.div_mul_le_self _ _)
  have h3 : ((e - start).toNat : Int) = e - start :=
    Int.toNat_of_nonneg (by omega)
  have h4 : (R.toNat : Int) = R := Int.toNat_of_nonneg (by omega)
  have h5 : ((i * R.toNat : Nat) : Int) ≤ ((e - start).toNat : Int) := by
    exact_mod_cast h2
  push_cast at h5
  rw [h4] at h5
  omega

theorem bucketValue_some_spec (points : List (Int × MinutePrice))
    (start e R : Int) (i : Nat) (p : Price) (hR : 0 < R)
    (hbse : start + (i : Int) * R ≤ e)
    (h : bucketValue points start e R i = some p) :
    ∃ k mp, lookupA points k = some mp ∧ mp.price = p ∧
      minuteFloorSec (start + (i : Int) * R) ≤ k ∧
      k ≤ min (start + (i : Int) * R + R - 1) e := by
  unfold bucketValue at h
  by_cases hRlt : R < 60
  · rw [if_pos hRlt] at h
    cases hl : lookupA points
        (minuteFloorSec (min (start + (i : Int) * R + R - 1) e)) with
    | none => rw [hl] at h; exact absurd h (by simp)
    | some point =>
      rw [hl] at h
      refine ⟨_, point, hl, Option.some_inj.mp h |>.symm ▸ rfl, ?_, ?_⟩
      · rw [minuteFloorSec_eq, minuteFloorSec_eq]
        omega
      · rw [minuteFloorSec_eq]
        omega
  · rw [if_neg hRlt] at h
    obtain ⟨k, mp, hmp, hp, hk1, hk2⟩ := minuteScan_some points _ _ p h
    exact ⟨k, mp, hmp, hp, hk1, hk2⟩

theorem bucketValue_none_spec (points : List (Int × MinutePrice))
    (start e R : Int) (i : Nat) (hR : 0 < R)
    (hbse : start + (i : Int) * R ≤ e)
    (h : ∀ k mp, lookupA points k = some mp →
      ¬(minuteFloorSec (start + (i : Int) * R) ≤ k ∧
        k ≤ min (start + (i : Int) * R + R - 1) e)) :
    bucketValue points start e R i = none := by
  unfold bucketValue
  by_cases hRlt : R < 60
  · rw [if_pos hRlt]
    cases hl : lookupA points
        (minuteFloorSec (min (start + (i : Int) * R + R - 1) e)) with
    | none => rfl
    | some point =>
      exfalso
      refine h _ point hl ⟨?_, ?_⟩
      · rw [minuteFloorSec_eq, minuteFloorSec_eq]
        omega
      · rw [minuteFloorSec_eq]
        omega
  · rw [if_neg hRlt]
    apply minuteScan_none
    intro k hk1 hk2
    cases hl : lookupA points k with
    | none => rfl
    | some mp => exact absurd ⟨hk1, hk2⟩ (h k mp hl)

theorem buildPriceOverview_eq_cases (points : List (Int × MinutePrice))
    (start e R : Int) (hR : 0 < R) (hse : start ≤ e) :
    buildPriceOverview points start e R =
      if points = [] then none
      else
        if ((List.range ((e - start).toNat / R.toNat + 1)).map
            (bucketValue points start e R)).any (fun p => p.isSome) then
          some ⟨R,
            (List.range ((e - start).toNat / R.toNat + 1)).map
              (bucketValue points start e R),
            (List.range ((e - start).toNat / R.toNat + 1)).map
              (fun (i : Nat) => start + (i : Int) * R)⟩
        else none := by
  have hidx : (List.range ((e - start).toNat / R.toNat + 1)).takeWhile
      (fun (i : Nat) => decide (start + (i : Int) * R ≤ e)) =
      List.range ((e - start).toNat / R.toNat + 1) := by
    apply takeWhile_all
    intro i hi
    rw [List.mem_range] at hi
    rw [decide_eq_true_eq]
    exact bucketStart_le start e R i hR hse hi
  unfold buildPriceOverview
  rw [if_neg (not_le_of_gt hR), if_neg (not_lt_of_ge hse)]
  dsimp only
  rw [hidx]

/-- C5 amended: every non-null bucket value comes from a stored minute
overlapping the clamped bucket — a minute key `k` with
`minuteFloor(bucketStart) ≤ k ≤ min(bucketStart + R - 1, end)` (for
sub-minute resolutions it is exactly the minute containing the clamped
bucket end; minute keys strictly inside the half-open bucket interval are
not required, see the counterexample) — and a bucket none of whose
overlapping minutes is stored yields null. -/
theorem buildPriceOverview_bucket_minutes (points : List (Int × MinutePrice))
    (start e R : Int) (out : PriceOverviewResp) (i : Nat)
    (hR : 0 < R) (hse : start ≤ e)
    (h : buildPriceOverview points start e R = some out) :
    (∀ p, out.prices.get? i = some (some p) →
      ∃ k mp, lookupA points k = some mp ∧ mp.price = p ∧
        minuteFloorSec (start + (i : Int) * R) ≤ k ∧
        k ≤ min (start + (i : Int) * R + R - 1) e) ∧
    ((∀ k mp, lookupA points k = some mp →
        ¬(minuteFloorSec (start + (i : Int) * R) ≤ k ∧
          k ≤ min (start + (i : Int) * R + R - 1) e)) →
      ∀ q, out.prices.get? i = some q → q = none) := by
  rw [buildPriceOverview_eq_cases points start e R hR hse] at h
  by_cases hpts : points = []
  · rw [if_pos hpts] at h
    exact absurd h (by simp)
  · rw [if_neg hpts] at h
    by_cases hany : ((List.range ((e - start).toNat / R.toNat + 1)).map
        (bucketValue points start e R)).any (fun p => p.isSome) = true
    · rw [if_pos hany] at h
      have hout := (Option.some_inj.mp h).symm
      have hprices : out.prices =
          (List.range ((e - start).toNat / R.toNat + 1)).map
            (bucketValue points start e R) := by
        rw [hout]
      have hlen : out.prices.length = (e - start).toNat / R.toNat + 1 := by
        rw [hprices, List.length_map, List.length_range]
      have hget : ∀ q, out.prices.get? i = some q →
          i < (e - start).toNat / R.toNat + 1 ∧
            q = bucketValue points start e R i := by
        intro q hq
        have hil : i < out.prices.length := by
          by_contra hcon
          rw [List.get?_eq_none.mpr (le_of_not_lt hcon)] at hq
          exact absurd hq (by simp)
        rw [hlen] at hil
        refine ⟨hil, ?_⟩
        rw [hprices, List.get?_map, List.get?_range hil] at hq
        simp only [Option.map_some'] at hq
        exact (Option.some_inj.mp hq).symm
      constructor
      · intro p hp
        obtain ⟨hil, hqv⟩ := hget (some p) hp
        exact bucketValue_some_spec points start e R i p hR
          (bucketStart_le start e R i hR hse hil) hqv.symm
      · intro hnone q hq
        obtain ⟨hil, hqv⟩ := hget q hq
        rw [hqv]
        exact bucketValue_none_spec points start e R i hR
          (bucketStart_le start e R i hR hse hil) hnone
    · rw [if_neg hany] at h
      exact absurd h (by simp)

/-- The literal reading of C5 at one input: every non-null bucket value is
drawn from a stored minute key lying inside the half-open bucket interval
`[start + i·R, start + (i+1)·R)`. -/
def bucketInsideClaim (points : List (Int × MinutePrice))
    (start e R : Int) : Prop :=
  ∀ out, buildPriceOverview points start e R = some out →
    ∀ i p, out.prices.get? i = some (some p) →
      ∃ km ∈ points, km.2.price = p ∧
        start + (i : Int) * R ≤ km.1 ∧ km.1 < start + ((i : Int) + 1) * R

/-- C5 counterexample: a symbol with one stored minute (key 0, price 100),
queried over `[0, 60]` at 30-second resolution, answers bucket 1
(`[30, 60)`) with price 100 although no stored minute key lies in
`[30, 60)` — the sub-minute branch reads the minute containing the bucket
end, which starts before the bucket. -/
theorem bucketInsideClaim_counterexample :
    ¬ bucketInsideClaim [((0 : Int), MinutePrice.mk 0 100)] 0 60 30 := by
  intro h
  obtain ⟨km, hmem, hp, h1, h2⟩ :=
    h ⟨30, [some 100, some 100, none], [0, 30, 60]⟩ (by decide) 1 100
      (by decide)
  have : km = ((0 : Int), MinutePrice.mk 0 100) := by
    simpa using hmem
  rw [this] at h1
  norm_num at h1

/-- C5 witness: in the same query, bucket 1's price 100 does come from a
stored minute overlapping the clamped bucket (key 0 = the minute containing
the clamped bucket end 59). -/
theorem buildPriceOverview_bucket_minutes_witness :
    lookupA [((0 : Int), MinutePrice.mk 0 100)] 0 =
        some (MinutePrice.mk 0 100) ∧
    minuteFloorSec (0 + (1 : Int) * 30) ≤ 0 ∧
    (0 : Int) ≤ min (0 + (1 : Int) * 30 + 30 - 1) 60 := by
  obtain ⟨k, mp, h1, h2, h3, h4⟩ :=
    (buildPriceOverview_bucket_minutes [((0 : Int), MinutePrice.mk 0 100)]
      0 60 30 ⟨30, [some 100, some 100, none], [0, 30, 60]⟩ 1
      (by decide) (by decide) (by decide)).1 100 (by decide)
  have hmem := lookupA_mem _ _ _ h1
  have hk : k = 0 ∧ mp = MinutePrice.mk 0 100 := by
    simpa using hmem
  obtain ⟨rfl, rfl⟩ := hk
  exact ⟨h1, h3, h4⟩

/-- C6 amended: with a positive resolution and `start ≤ end`,
`buildPriceOverview` reports "not found" iff the symbol has no points at all
**or** every bucket in the queried window is empty; when it does answer, the
payload has exactly `floor(window_seconds / R) + 1` entries, one per
bucket. -/
theorem buildPriceOverview_notfound_iff (points : List (Int × MinutePrice))
    (start e R : Int) (hR : 0 < R) (hse : start ≤ e) :
    (buildPriceOverview points start e R = none ↔
      points = [] ∨ ∀ i < (e - start).toNat / R.toNat + 1,
        bucketValue points start e R i = none) ∧
    ∀ out, buildPriceOverview points start e R = some out →
      out.prices.length = (e - start).toNat / R.toNat + 1 := by
  rw [buildPriceOverview_eq_cases points start e R hR hse]
  constructor
  · by_cases hpts : points = []
    · simp [hpts]
    · rw [if_neg hpts]
      by_cases hany : ((List.range ((e - start).toNat / R.toNat + 1)).map
          (bucketValue points start e R)).any (fun p => p.isSome) = true
      · rw [if_pos hany]
        simp only [List.any_eq_true, List.mem_map, List.mem_range] at hany
        obtain ⟨q, ⟨j, hj, hq⟩, hqsome⟩ := hany
        constructor
        · intro habs
          exact absurd habs (by simp)
        · rintro (rfl | hall)
          · exact absurd rfl hpts
          · rw [hall j hj] at hq
            rw [← hq] at hqsome
            simp at hqsome
      · rw [if_neg hany]
        simp only [List.any_eq_true, List.mem_map, List.mem_range,
          not_exists, not_and] at hany
        constructor
        · intro _
          right
          intro j hj
          have := hany (bucketValue points start e R j) ⟨j, hj, rfl⟩
          cases hv : bucketValue points start e R j with
          | none => rfl
          | some p =>
            rw [hv] at this
            simp at this
        · intro _
          rfl
  · intro out hout
    by_cases hpts : points = []
    · rw [if_pos hpts] at hout
      exact absurd hout (by simp)
    · rw [if_neg hpts] at hout
      by_cases hany : ((List.range ((e - start).toNat / R.toNat + 1)).map
          (bucketValue points start e R)).any (fun p => p.isSome) = true
      · rw [if_pos hany] at hout
        have := (Option.some_inj.mp hout).symm
        rw [this]
        simp
      · rw [if_neg hany] at hout
        exact absurd hout (by simp)

/-- C6 counterexample: a symbol holding one point at minute key 0, queried
over `[600, 660]`, gets "not found" although its `PriceIndex` entry is
non-empty — `ok = false` is not equivalent to "zero points in the entire
index". -/
theorem buildPriceOverview_notfound_counterexample :
    ¬ (buildPriceOverview [((0 : Int), MinutePrice.mk 0 100)] 600 660 60 =
          none ↔
        [((0 : Int), MinutePrice.mk 0 100)] = []) := by
  decide

/-- C6 witness: the not-found query above satisfies the amended
characterization (all buckets empty), and a window that does hold data gets
one entry per bucket (`60 / 60 + 1 = 2`). -/
theorem buildPriceOverview_notfound_iff_witness :
    buildPriceOverview [((0 : Int), MinutePrice.mk 0 100)] 600 660 60 =
      none ∧
    (buildPriceOverview [((0 : Int), MinutePrice.mk 0 100)] 0 60 60).map
      (fun out => out.prices.length) = some 2 := by
  constructor
  · exact (buildPriceOverview_notfound_iff _ 600 660 60 (by decide)
      (by decide)).1.mpr (Or.inr (by decide))
  · have h : buildPriceOverview [((0 : Int), MinutePrice.mk 0 100)] 0 60 60 =
        some ⟨60, [some 100, none], [0, 60]⟩ := by
      decide
    have hlen := (buildPriceOverview_notfound_iff _ 0 60 60 (by decide)
      (by decide)).2 ⟨60, [some 100, none], [0, 60]⟩ h
    rw [h]
    simpa using hlen

/-! ## C1: what the global window actually tracks

`applyPoint` never touches `minTS`/`maxTS`; only `updateRangeFromPath` does,
fed with path-derived timestamps.  The window invariant is therefore stated
over the `pathTS` ghost, and the claim's reading over tick timestamps is
refuted on a concrete tree. -/

/-- One step of the `updateRangeFromPath` min/max update, with its
`0`-as-unset sentinel. -/
def wstep (w : Int × Int) (t : Int) : Int × Int :=
  (if w.1 = 0 ∨ t < w.1 then t else w.1, if w.2 = 0 ∨ t > w.2 then t else w.2)

/-- The window obtained by folding `wstep` over a timestamp list. -/
def windowFoldFrom (w : Int × Int) (l : List Int) : Int × Int :=
  l.foldl wstep w

/-- The window invariant of a scan accumulator: its `(startTS, endTS)` is the
`wstep`-fold of the path timestamps recorded so far. -/
def WF (acc : Acc) : Prop :=
  (acc.startTS, acc.endTS) = windowFoldFrom (0, 0) acc.pathTS

/-- The window/ghost-path projection that ingestion leaves untouched. -/
def wst (acc : Acc) : Int × Int × List Int :=
  (acc.startTS, acc.endTS, acc.pathTS)

theorem WF_of_wst {acc acc' : Acc} (h : wst acc' = wst acc) (hwf : WF acc) :
    WF acc' := by
  unfold WF
  unfold wst at h
  have h1 : acc'.startTS = acc.startTS := congrArg Prod.fst h
  have h2 : acc'.endTS = acc.endTS := congrArg Prod.fst (congrArg Prod.snd h)
  have h3 : acc'.pathTS = acc.pathTS := congrArg Prod.snd (congrArg Prod.snd h)
  rw [h1, h2, h3]
  exact hwf

theorem wst_applyPoint (symbol : String) (ts : Int) (price : Price)
    (acc : Acc) : wst (applyPoint symbol ts price acc) = wst acc := rfl

theorem wst_ingestCedroLine (symbol : String) (line : Chars) (acc : Acc) :
    wst (ingestCedroLine symbol line acc) = wst acc := by
  unfold ingestCedroLine
  split
  · rfl
  · rfl

theorem wst_ingestCedroLines (symbol : String) (lines : List String)
    (acc : Acc) : wst (ingestCedroLines symbol lines acc) = wst acc := by
  induction lines generalizing acc with
  | nil => rfl
  | cons l ls ih =>
    unfold ingestCedroLines
    dsimp only
    split
    · exact ih acc
    · rw [ih, wst_ingestCedroLine]

theorem wst_ingestRecords (symbol : String) (idxTime : Nat)
    (idxLast idxBid idxAsk idxPrice : Option Nat)
    (lines : List String) (acc acc' : Acc)
    (h : ingestRecords symbol idxTime idxLast idxBid idxAsk idxPrice
      lines acc = .ok acc') : wst acc' = wst acc := by
  induction lines generalizing acc with
  | nil =>
    cases h
    rfl
  | cons l ls ih =>
    unfold ingestRecords at h
    split at h
    · exact ih _ h
    · split at h
      · exact absurd h (by simp)
      · split at h
        · exact ih _ h
        · exact (ih _ h).trans (wst_applyPoint symbol _ _ acc)

theorem exbind_ok {α β : Type} (a : α) (f : α → Except String β) :
    ((Except.ok a : Except String α) >>= f) = f a := rfl

theorem exbind_error {α β : Type} (e : String) (f : α → Except String β) :
    ((Except.error e : Except String α) >>= f) = Except.error e := rfl

theorem wst_ingestFile (symbol : String) (content : Option (List String))
    (acc acc' : Acc) (h : ingestFile symbol content acc = .ok acc') :
    wst acc' = wst acc := by
  unfold ingestFile at h
  split at h
  · exact absurd h (by simp)
  · cases h
    rfl
  · rename_i first rest
    dsimp only at h
    split at h
    · cases h
      rfl
    · split at h
      · cases h
        rw [wst_ingestCedroLines, wst_ingestCedroLine]
      · split at h
        · exact absurd h (by simp)
        · split at h
          · exact absurd h (by simp)
          · exact wst_ingestRecords _ _ _ _ _ _ _ _ _ h

theorem wf_updateRangeFromPath (dateName fileName : String) (acc : Acc)
    (hwf : WF acc) : WF (updateRangeFromPath dateName fileName acc) := by
  unfold updateRangeFromPath
  split
  · exact hwf
  · unfold WF windowFoldFrom at hwf ⊢
    dsimp only
    rw [List.foldl_append, ← hwf]
    rfl

theorem wf_processFiles (dateName symbol : String)
    (files : List (String × FNode)) (acc acc' : Acc)
    (h : processFiles dateName symbol files acc = .ok acc') (hwf : WF acc) :
    WF acc' := by
  induction files generalizing acc with
  | nil =>
    cases h
    exact hwf
  | cons entry rest ih =>
    unfold processFiles at h
    split at h
    · exact ih _ h hwf
    · split at h
      · exact ih _ h hwf
      · split at h
        · exact ih _ h hwf
        · rename_i content heq
          dsimp only at h
          cases hif : ingestFile symbol content
              (updateRangeFromPath dateName entry.1 acc) with
          | error e =>
            rw [hif] at h
            simp only [exbind_error] at h
            exact absurd h (by simp)
          | ok acc2 =>
            rw [hif] at h
            simp only [exbind_ok] at h
            exact ih _ h (WF_of_wst
              (wst_ingestFile symbol content _ _ hif)
              (wf_updateRangeFromPath dateName entry.1 acc hwf))

theorem wf_processSymbols (dateName : String)
    (symbols : List (String × FNode)) (acc acc' : Acc)
    (h : processSymbols dateName symbols acc = .ok acc') (hwf : WF acc) :
    WF acc' := by
  induction symbols generalizing acc with
  | nil =>
    cases h
    exact hwf
  | cons entry rest ih =>
    unfold processSymbols at h
    split at h
    · exact ih _ h hwf
    · cases hrd : readDir entry.2 with
      | error e =>
        rw [hrd] at h
        simp only [exbind_error] at h
        exact absurd h (by simp)
      | ok files =>
        rw [hrd] at h
        simp only [exbind_ok] at h
        cases hpf : processFiles dateName entry.1 files acc with
        | error e =>
          rw [hpf] at h
          simp only [exbind_error] at h
          exact absurd h (by simp)
        | ok acc2 =>
          rw [hpf] at h
          simp only [exbind_ok] at h
          exact ih _ h (wf_processFiles dateName entry.1 files acc acc2 hpf hwf)

theorem wf_processDates (dates : List (String × FNode)) (acc acc' : Acc)
    (h : processDates dates acc = .ok acc') (hwf : WF acc) : WF acc' := by
  induction dates generalizing acc with
  | nil =>
    cases h
    exact hwf
  | cons entry rest ih =>
    unfold processDates at h
    split at h
    · exact ih _ h hwf
    · cases hrd : readDir entry.2 with
      | error e =>
        rw [hrd] at h
        simp only [exbind_error] at h
        exact absurd h (by simp)
      | ok symbols =>
        rw [hrd] at h
        simp only [exbind_ok] at h
        cases hps : processSymbols entry.1 symbols acc with
        | error e =>
          rw [hps] at h
          simp only [exbind_error] at h
          exact absurd h (by simp)
        | ok acc2 =>
          rw [hps] at h
          simp only [exbind_ok] at h
          exact ih _ h (wf_processSymbols entry.1 symbols acc acc2 hps hwf)

theorem wf_loadFromDir (root : FNode) (acc acc' : Acc)
    (h : loadFromDir root acc = .ok acc') (hwf : WF acc) : WF acc' := by
  unfold loadFromDir at h
  cases hrd : readDir root with
  | error e =>
    rw [hrd] at h
    simp only [exbind_error] at h
    exact absurd h (by simp)
  | ok dates =>
    rw [hrd] at h
    simp only [exbind_ok] at h
    exact wf_processDates dates acc acc' h hwf

theorem wf_loadRoots (roots : List RootDir) (acc acc' : Acc)
    (h : loadRoots roots acc = .ok acc') (hwf : WF acc) : WF acc' := by
  induction roots generalizing acc with
  | nil =>
    cases h
    exact hwf
  | cons root rest ih =>
    unfold loadRoots at h
    split at h
    · exact ih _ h hwf
    · exact absurd h (by simp)
    · rename_i node
      cases hld : loadFromDir node acc with
      | error e =>
        rw [hld] at h
        simp only [exbind_error] at h
        exact absurd h (by simp)
      | ok acc2 =>
        rw [hld] at h
        simp only [exbind_ok] at h
        exact ih _ h (wf_loadFromDir node acc acc2 hld hwf)

theorem windowFoldFrom_bounds (l : List Int) (a b : Int)
    (ha : 0 < a) (hb : 0 < b) (hpos : ∀ t ∈ l, 0 < t) :
    ((windowFoldFrom (a, b) l).1 = a ∨ (windowFoldFrom (a, b) l).1 ∈ l) ∧
    (windowFoldFrom (a, b) l).1 ≤ a ∧
    (∀ t ∈ l, (windowFoldFrom (a, b) l).1 ≤ t) ∧
    0 < (windowFoldFrom (a, b) l).1 ∧
    ((windowFoldFrom (a, b) l).2 = b ∨ (windowFoldFrom (a, b) l).2 ∈ l) ∧
    b ≤ (windowFoldFrom (a, b) l).2 ∧
    (∀ t ∈ l, t ≤ (windowFoldFrom (a, b) l).2) ∧
    0 < (windowFoldFrom (a, b) l).2 := by
  induction l generalizing a b with
  | nil =>
    refine ⟨Or.inl rfl, le_refl _, by simp, ha, Or.inl rfl, le_refl _,
      by simp, hb⟩
  | cons t rest ih =>
    have htpos : 0 < t := hpos t (List.mem_cons_self _ _)
    have hane : ¬ a = 0 := by omega
    have hbne : ¬ b = 0 := by omega
    have hposrest : ∀ x ∈ rest, 0 < x :=
      fun x hx => hpos x (List.mem_cons_of_mem _ hx)
    set aNew := if t < a then t else a with hadef
    set bNew := if t > b then t else b with hbdef
    have hacases : aNew = t ∨ aNew = a := by
      rw [hadef]
      split
      · exact Or.inl rfl
      · exact Or.inr rfl
    have hbcases : bNew = t ∨ bNew = b := by
      rw [hbdef]
      split
      · exact Or.inl rfl
      · exact Or.inr rfl
    have hale : aNew ≤ a ∧ aNew ≤ t := by
      rw [hadef]
      split <;> omega
    have hbge : b ≤ bNew ∧ t ≤ bNew := by
      rw [hbdef]
      split <;> omega
    have hapos : 0 < aNew := by
      rw [hadef]
      split <;> omega
    have hbpos : 0 < bNew := by
      rw [hbdef]
      split <;> omega
    have hstep : wstep (a, b) t = (aNew, bNew) := by
      rw [hadef, hbdef]
      unfold wstep
      simp [hane, hbne]
    have hfold : windowFoldFrom (a, b) (t :: rest) =
        windowFoldFrom (aNew, bNew) rest := by
      unfold windowFoldFrom
      rw [List.foldl_cons, hstep]
    obtain ⟨m1, m2, m3, m4, m5, m6, m7, m8⟩ := ih aNew bNew hapos hbpos hposrest
    rw [hfold]
    refine ⟨?_, by omega, ?_, m4, ?_, by omega, ?_, m8⟩
    · rcases m1 with hm | hm
      · rcases hacases with h' | h'
        · refine Or.inr ?_
          rw [hm, h']
          exact List.mem_cons_self _ _
        · refine Or.inl ?_
          rw [hm, h']
      · exact Or.inr (List.mem_cons_of_mem _ hm)
    · intro x hx
      rcases List.mem_cons.mp hx with rfl | hx
      · omega
      · exact m3 x hx
    · rcases m5 with hm | hm
      · rcases hbcases with h' | h'
        · refine Or.inr ?_
          rw [hm, h']
          exact List.mem_cons_self _ _
        · refine Or.inl ?_
          rw [hm, h']
      · exact Or.inr (List.mem_cons_of_mem _ hm)
    · intro x hx
      rcases List.mem_cons.mp hx with rfl | hx
      · omega
      · exact m7 x hx

/-- C1 amended: after a successful full load whose (positive) path-derived
timestamps are `pathTS`, the global window is `[min pathTS, max pathTS]`
(and `(0, 0)` when no file path parses).  It is **not** computed from the
accepted ticks' own timestamps — see the counterexample. -/
theorem loadRoots_window_from_paths (roots : List RootDir) (acc : Acc)
    (h : loadRoots roots emptyAcc = .ok acc)
    (hpos : ∀ t ∈ acc.pathTS, 0 < t) :
    (acc.pathTS = [] → acc.startTS = 0 ∧ acc.endTS = 0) ∧
    (acc.pathTS ≠ [] →
      (acc.startTS ∈ acc.pathTS ∧ ∀ t ∈ acc.pathTS, acc.startTS ≤ t) ∧
      (acc.endTS ∈ acc.pathTS ∧ ∀ t ∈ acc.pathTS, t ≤ acc.endTS)) := by
  have hwf : WF acc := wf_loadRoots roots emptyAcc acc h rfl
  unfold WF at hwf
  constructor
  · intro hnil
    rw [hnil] at hwf
    have h1 : acc.startTS = 0 := congrArg Prod.fst hwf
    have h2 : acc.endTS = 0 := congrArg Prod.snd hwf
    exact ⟨h1, h2⟩
  · intro hne
    match hl : acc.pathTS, hne with
    | t :: rest, _ =>
      rw [hl] at hwf hpos
      have htpos : 0 < t := hpos t (List.mem_cons_self _ _)
      have hfirst : windowFoldFrom (0, 0) (t :: rest) =
          windowFoldFrom (t, t) rest := by
        unfold windowFoldFrom
        rw [List.foldl_cons]
        have : wstep (0, 0) t = (t, t) := by
          unfold wstep
          simp
        rw [this]
      rw [hfirst] at hwf
      obtain ⟨m1, m2, m3, _, m5, m6, m7, _⟩ :=
        windowFoldFrom_bounds rest t t htpos htpos
          (fun x hx => hpos x (List.mem_cons_of_mem _ hx))
      have hs : acc.startTS = (windowFoldFrom (t, t) rest).1 :=
        congrArg Prod.fst hwf
      have he : acc.endTS = (windowFoldFrom (t, t) rest).2 :=
        congrArg Prod.snd hwf
      constructor
      · constructor
        · rw [hs]
          rcases m1 with hm | hm
          · rw [hm]
            exact List.mem_cons_self _ _
          · exact List.mem_cons_of_mem _ hm
        · intro x hx
          rw [hs]
          rcases List.mem_cons.mp hx with rfl | hx
          · exact m2
          · exact m3 x hx
      · constructor
        · rw [he]
          rcases m5 with hm | hm
          · rw [hm]
            exact List.mem_cons_self _ _
          · exact List.mem_cons_of_mem _ hm
        · intro x hx
          rw [he]
          rcases List.mem_cons.mp hx with rfl | hx
          · exact m6
          · exact m7 x hx

/-- A one-root tree: `2024-01-01/SYM/10_00.csv` holding a single cedro tick
at 2024-01-01 10:10 UTC (1704103800000 ms) with price 5; the file's *path*
encodes 10:00 (1704103200000 ms). -/
def sampleTree : RootDir :=
  RootDir.present (FNode.dir (some
    [("2024-01-01", FNode.dir (some
      [("SYM", FNode.dir (some
        [("10_00.csv",
          FNode.file (some ["1704103800000|a:b:c:d:5"]))]))]))]))

/-- The accumulator a full load of `sampleTree` produces. -/
def sampleAcc : Acc :=
  { startTS := 1704103200000
    endTS := 1704103200000
    quality := [("SYM", [1704103800])]
    prices := [("SYM", [(1704103800, ⟨1704103800000, 5⟩)])]
    ticks := [⟨"SYM", 1704103800000, 5⟩]
    pathTS := [1704103200000] }

/-- The literal reading of C1 for a given tree: a successful full load's
global window is `[min, max]` over the accepted ticks' own timestamps. -/
def windowEqTicksClaim (roots : List RootDir) : Prop :=
  ∀ acc, loadRoots roots emptyAcc = .ok acc → acc.ticks ≠ [] →
    (acc.startTS ∈ acc.ticks.map Tick.ts ∧
      ∀ t ∈ acc.ticks.map Tick.ts, acc.startTS ≤ t) ∧
    (acc.endTS ∈ acc.ticks.map Tick.ts ∧
      ∀ t ∈ acc.ticks.map Tick.ts, t ≤ acc.endTS)

/-- C1 counterexample: loading `sampleTree` accepts exactly one tick, with
timestamp 1704103800000 ms, yet the store's window is
`[1704103200000, 1704103200000]` — the 10:00 encoded in the file *path*.
`applyPoint` never feeds tick timestamps into the window. -/
theorem windowEqTicksClaim_counterexample :
    ¬ windowEqTicksClaim [sampleTree] := by
  intro h
  have hload : loadRoots [sampleTree] emptyAcc = .ok sampleAcc := by rfl
  have hc := h sampleAcc hload (by decide)
  have hmem := hc.1.1
  revert hmem
  decide

/-- C1 witness (for the amended theorem): on `sampleTree` the window is the
min/max of the parsed path timestamps. -/
theorem loadRoots_window_from_paths_witness :
    loadRoots [sampleTree] emptyAcc = Except.ok sampleAcc ∧
    sampleAcc.startTS ∈ sampleAcc.pathTS ∧
    (∀ t ∈ sampleAcc.pathTS, sampleAcc.startTS ≤ t) ∧
    sampleAcc.endTS ∈ sampleAcc.pathTS ∧
    (∀ t ∈ sampleAcc.pathTS, t ≤ sampleAcc.endTS) := by
  have hload : loadRoots [sampleTree] emptyAcc = .ok sampleAcc := by rfl
  have h := loadRoots_window_from_paths [sampleTree] sampleAcc hload
    (by decide)
  obtain ⟨⟨hs1, hs2⟩, ⟨he1, he2⟩⟩ := h.2 (by decide)
  exact ⟨hload, hs1, hs2, he1, he2⟩

/-! ## C9: what a malformed row and an unreadable file actually do -/

/-- A tree whose symbol directory holds an unreadable file (`os.Open`
fails) next to a readable well-formed one. -/
def treeWithUnreadable : RootDir :=
  RootDir.present (FNode.dir (some
    [("2024-01-01", FNode.dir (some
      [("SYM", FNode.dir (some
        [("10_00.csv", FNode.file none),
         ("10_01.csv",
           FNode.file (some ["1704103860000|a:b:c:d:7"]))]))]))]))

/-- The same tree with the unreadable file removed. -/
def treeReadableOnly : RootDir :=
  RootDir.present (FNode.dir (some
    [("2024-01-01", FNode.dir (some
      [("SYM", FNode.dir (some
        [("10_01.csv",
           FNode.file (some ["1704103860000|a:b:c:d:7"]))]))]))]))

/-- The literal reading of C9 for a pair of trees differing by one
unreadable file: the ticks ingested from the other readable, well-formed
files are identical. -/
def skipUnreadableClaim (r1 r2 : List RootDir) : Prop :=
  Except.map (fun a => a.ticks) (loadRoots r1 emptyAcc) =
    Except.map (fun a => a.ticks) (loadRoots r2 emptyAcc)

/-- C9 counterexample: with the unreadable file present the whole scan pass
aborts (`ingestFile` returns the open error and every caller propagates it),
so the readable sibling's tick is not ingested at all — unlike a malformed
row, an unreadable individual file is *not* skipped. -/
theorem skipUnreadableClaim_counterexample :
    ¬ skipUnreadableClaim [treeWithUnreadable] [treeReadableOnly] := by
  unfold skipUnreadableClaim
  intro h
  have h1 : Except.map (fun (a : Acc) => a.ticks)
      (loadRoots [treeWithUnreadable] emptyAcc) =
      Except.error "open failed" := by rfl
  have h2 : Except.map (fun (a : Acc) => a.ticks)
      (loadRoots [treeReadableOnly] emptyAcc) =
      Except.ok [⟨"SYM", 1704103860000, 7⟩] := by rfl
  rw [h1, h2] at h
  exact Except.noConfusion h

/-- C9 amended: a record whose time or price cells fail to parse is skipped
and never aborts the rest of the file or scan, and a malformed cedro line is
a no-op; but a CSV record with malformed quoting makes `reader.Read` error,
which the record loop returns — aborting the ingestion (and with it the
whole scan pass, like an unreadable file; see the counterexample). -/
theorem malformed_row_skipped (symbol : String) (idxTime : Nat)
    (idxLast idxBid idxAsk idxPrice : Option Nat)
    (lGood lBad : String) (record : List Chars) (rest : List String)
    (line : Chars) (acc : Acc) (e : String)
    (hgne : lGood.data ≠ [])
    (hok : readCSVRecord lGood.data = .ok record)
    (hrec : rowPoint idxTime idxLast idxBid idxAsk idxPrice record = none)
    (hbne : lBad.data ≠ [])
    (hbad : readCSVRecord lBad.data = .error e)
    (hline : cedroPoint line = none) :
    ingestRecords symbol idxTime idxLast idxBid idxAsk idxPrice
        (lGood :: rest) acc =
      ingestRecords symbol idxTime idxLast idxBid idxAsk idxPrice rest acc ∧
    ingestRecords symbol idxTime idxLast idxBid idxAsk idxPrice
        (lBad :: rest) acc = .error e ∧
    ingestCedroLine symbol line acc = acc := by
  refine ⟨?_, ?_, ?_⟩
  · simp only [ingestRecords, if_neg hgne, hok, hrec]
  · simp only [ingestRecords, if_neg hbne, hbad]
  · unfold ingestCedroLine
    rw [hline]

/-- C9 witness: a record whose time cell does not parse (`"x"`) is skipped
and the remaining record still gets ingested; a bare-quote record aborts
with the csv parse error; a separator-free cedro line is a no-op. -/
theorem malformed_row_skipped_witness :
    ingestRecords "A" 0 none none none (some 1) ["x", "60,7"] emptyAcc =
      ingestRecords "A" 0 none none none (some 1) ["60,7"] emptyAcc ∧
    ingestRecords "A" 0 none none none (some 1) ["3\"4", "60,7"] emptyAcc =
      .error "bare quote in non-quoted field" ∧
    ingestCedroLine "A" [ 'z' ] emptyAcc = emptyAcc :=
  malformed_row_skipped "A" 0 none none none (some 1) "x" "3\"4"
    [[ 'x' ]] ["60,7"] [ 'z' ] emptyAcc "bare quote in non-quoted field"
    (by decide) rfl rfl (by decide) rfl rfl

end MVR

